import Mathlib

/-!
Shallow embedding of two components of the onnxruntime repository:

* the MatMul/Transpose fusion pass
  (`onnxruntime/core/optimizer/matmul_transpose_fusion.cc`), and
* the module gradient graph builder
  (`orttraining/orttraining/core/framework/module_gradient_graph_builder.cc`).

The graph IR is modelled close to the source: a `Graph` owns nodes (stable
indices, never reused: `nextNodeIdx` is the arena high-water mark) and named
values (`NodeArg`).  Producer/consumer lookups are derived from the node lists
exactly as the source's lookup indices are maintained.  `ORT_ENFORCE` /
out-of-bounds dereferences are modelled with an explicit error channel
(`Except`); dereferencing a dead node index during the fusion traversal is
the distinguished error `PassErr.deadIndex`.

Float attribute payloads are carried as opaque bit tokens (`Int`): the code
under verification only copies them or writes the literal `1.0f`
(`floatOne`), it never computes with them.
-/

/-- Attribute payload (AttributeProto).  `ints`/`int` carry integer data,
`float` carries an opaque bit token for a float payload. -/
inductive Attr where
  | ints (v : List Int)
  | int (v : Int)
  | float (v : Int)
  deriving DecidableEq

/-- Bit token standing for the float literal `1.0f`. -/
def floatOne : Int := 1065353216

/-- `AttributeProto.ints()`: the ints field, empty for other payload kinds
(protobuf default), as read by `RetrieveValues<int64_t>`. -/
def Attr.getInts : Attr → List Int
  | .ints v => v
  | _ => []

/-- `AttributeProto.i()`: the int field, 0 for other payload kinds. -/
def Attr.i : Attr → Int
  | .int v => v
  | _ => 0

/-- `AttributeProto.f()`: the float field, the zero token for other kinds. -/
def Attr.f : Attr → Int
  | .float v => v
  | _ => 0

/-- A named value slot (`NodeArg`): optional shape (list of dimension
values) and optional tensor element type. -/
structure NodeArg where
  name : String
  shape : Option (List Int)
  elemType : Option Int
  deriving DecidableEq

/-- An operator instance (`Node`): stable index, name, operator type, domain,
resolved opset version, ordered input/output value names, attributes and
execution-provider tag. -/
structure Node where
  idx : Nat
  name : String
  opType : String
  domain : String
  sinceVersion : Nat
  inputs : List String
  outputs : List String
  attrs : List (String × Attr)
  ep : String
  deriving DecidableEq

/-- The graph: owns nodes and node args, declared inputs/outputs, the arena
high-water mark for node indices, and a counter for unique-name generation. -/
structure Graph where
  nodes : List Node
  nodeArgs : List NodeArg
  graphInputs : List String
  graphOutputs : List String
  nextNodeIdx : Nat
  nameGen : Nat
  deriving DecidableEq

def kMSDomain : String := "com.microsoft"

/-- `Graph::GetNode(index)`: node with a given stable index, if live. -/
def Graph.getNode (g : Graph) (i : Nat) : Option Node :=
  g.nodes.find? (fun n => n.idx = i)

/-- `Graph::GetMutableProducerNode(name)`: the node producing a value. -/
def Graph.getProducerNode (g : Graph) (v : String) : Option Node :=
  g.nodes.find? (fun n => v ∈ n.outputs)

/-- `Graph::GetConsumerNodes(name)`: the distinct live nodes consuming a
value as an input. -/
def Graph.getConsumerNodes (g : Graph) (v : String) : List Node :=
  g.nodes.filter (fun n => v ∈ n.inputs)

/-- `Node::GetOutputEdgesCount()`: number of consumer edges of a node's
outputs (one edge per consuming input-def occurrence). -/
def outputEdgesCount (g : Graph) (n : Node) : Nat :=
  (g.nodes.map (fun m => (m.inputs.filter (fun v => v ∈ n.outputs)).length)).sum

/-- `Graph::GetNodeArg(name)`. -/
def Graph.getNodeArg (g : Graph) (v : String) : Option NodeArg :=
  g.nodeArgs.find? (fun a => a.name = v)

/-- `Graph::GetOrCreateNodeArg(name, type_proto)`: an existing arg is
returned untouched, otherwise one is created with the given type data. -/
def Graph.getOrCreateNodeArg (g : Graph) (v : String) (shape : Option (List Int))
    (elemType : Option Int) : NodeArg × Graph :=
  match g.getNodeArg v with
  | some a => (a, g)
  | none =>
    let a : NodeArg := ⟨v, shape, elemType⟩
    (a, { g with nodeArgs := g.nodeArgs ++ [a] })

/-- `Graph::GenerateNodeName(base)`: the base if unused, else a
counter-suffixed fresh variant. -/
def Graph.generateNodeName (g : Graph) (base : String) : String × Graph :=
  if g.nodes.any (fun n => n.name = base) then
    (base ++ "_" ++ toString g.nameGen, { g with nameGen := g.nameGen + 1 })
  else (base, g)

/-- `Graph::GenerateNodeArgName(base)`: the base if unused, else a
counter-suffixed fresh variant. -/
def Graph.generateNodeArgName (g : Graph) (base : String) : String × Graph :=
  if g.nodeArgs.any (fun a => a.name = base) then
    (base ++ "_" ++ toString g.nameGen, { g with nameGen := g.nameGen + 1 })
  else (base, g)

/-- `Graph::AddNode` (with the subsequent `SetExecutionProviderType` where
the source calls it): appends a node at the next stable index.  For nodes
whose op schema resolves later, `sinceVersion` is the value the next
`Resolve` assigns. -/
def Graph.addNode (g : Graph) (name opType domain : String) (sinceVersion : Nat)
    (inputs outputs : List String) (attrs : List (String × Attr)) (ep : String) :
    Node × Graph :=
  let n : Node := ⟨g.nextNodeIdx, name, opType, domain, sinceVersion, inputs, outputs, attrs, ep⟩
  (n, { g with nodes := g.nodes ++ [n], nextNodeIdx := g.nextNodeIdx + 1 })

/-- `Graph::RemoveNode(index)`: physically erase the node at an index. -/
def Graph.removeNode (g : Graph) (i : Nat) : Graph :=
  { g with nodes := g.nodes.filter (fun n => n.idx ≠ i) }

/-- Error channel of the fusion pass: a failed `ORT_ENFORCE`/precondition,
or a dereference of a node index that is no longer live. -/
inductive PassErr where
  | enforce (msg : String)
  | deadIndex
  deriving DecidableEq

deriving instance DecidableEq for Except

/-- `Node::GetAttributes().find(name)` on an attribute list. -/
def lookupAttrImpl (attrs : List (String × Attr)) (a : String) : Option Attr :=
  (attrs.find? (fun p => p.1 = a)).map Prod.snd

/-- `GetTransposePerms`: the permutation of a Transpose node — the `perm`
attribute when present, else the fully reversed axis order when the input
rank is statically known (`none` when it is not). -/
def GetTransposePerms (g : Graph) (t : Node) : Except PassErr (Option (List Int)) :=
  if t.inputs.length ≠ 1 then .error (.enforce "transpose_node.InputDefs().size() == 1")
  else
    match lookupAttrImpl t.attrs "perm" with
    | some a => .ok (some a.getInts)
    | none =>
      match g.getNodeArg (t.inputs.getD 0 "") with
      | none => .ok none
      | some arg =>
        match arg.shape with
        | none => .ok none
        | some dims => .ok (some (((List.range dims.length).reverse).map Int.ofNat))

/-- Check that a permutation fixes every leading axis and swaps exactly the
last two (the loop and final comparison of `GetTransposeNodeFromOutput`). -/
def isTransLastTwoDims (perms : List Int) : Bool :=
  if perms.length < 2 then false
  else
    ((List.range (perms.length - 2)).all (fun i => perms.getD i 0 = Int.ofNat i)) &&
    perms.getD (perms.length - 2) 0 = Int.ofNat (perms.length - 1) &&
    perms.getD (perms.length - 1) 0 = Int.ofNat (perms.length - 2)

/-- `GetTransposeNodeFromOutput`: the node producing `v` if it is a
Transpose, feeds no declared graph output, and its permutation swaps exactly
the last two axes. -/
def GetTransposeNodeFromOutput (g : Graph) (v : String) : Except PassErr (Option Node) :=
  match g.getProducerNode v with
  | none => .ok none
  | some t =>
    if t.opType ≠ "Transpose" then .ok none
    else if t.outputs.any (fun o => o ∈ g.graphOutputs) then .ok none
    else
      match GetTransposePerms g t with
      | .error e => .error e
      | .ok none => .ok none
      | .ok (some perms) =>
        if isTransLastTwoDims perms then .ok (some t) else .ok none

/-- `size_t` modulus: the consumer counter lives in `size_t`. -/
def SIZE_T_MOD : Nat := 2 ^ 64

/-- `UpdateConsumerCount`: first query for a value records and returns its
live consumer count minus one; later queries decrement the record (in
`size_t` arithmetic). -/
def UpdateConsumerCount (g : Graph) (target : String) (cm : List (String × Nat)) :
    Except PassErr (Nat × List (String × Nat)) :=
  let consumers := g.getConsumerNodes target
  if consumers.length = 0 then .error (.enforce "!node_consumers.empty()")
  else
    match cm.find? (fun p => p.1 = target) with
    | none => .ok (consumers.length - 1, (target, consumers.length - 1) :: cm)
    | some p =>
      let c := (p.2 + (SIZE_T_MOD - 1)) % SIZE_T_MOD
      .ok (c, cm.map (fun q => if q.1 = target then (q.1, c) else q))

/-- `GetTransposeNodeFromCast`: interchange a Transpose→Cast producer chain
into Cast→Transpose when both original nodes have exactly one consumer edge;
returns the updated graph and the new Transpose node, `none` when the
pattern does not match (graph untouched). -/
def GetTransposeNodeFromCast (g : Graph) (cast : Node) : Except PassErr (Option (Graph × Node)) :=
  match cast.inputs with
  | [] => .error (.enforce "cast->MutableInputDefs()[0]")
  | castIn :: _ =>
    match GetTransposeNodeFromOutput g castIn with
    | .error e => .error e
    | .ok none => .ok none
    | .ok (some transpose) =>
      if outputEdgesCount g cast ≠ 1 ∨ outputEdgesCount g transpose ≠ 1 then .ok none
      else
        match cast.outputs, transpose.inputs with
        | castOutput :: _, transposeInput :: _ =>
          match g.getNodeArg castOutput, g.getNodeArg transposeInput with
          | some castOutArg, some transInArg =>
            match castOutArg.elemType with
            | none => .error (.enforce "cast_output->TypeAsProto()->tensor_type().elem_type()")
            | some elemT =>
              let p1 := g.getOrCreateNodeArg (castOutput ++ "_transformed") transInArg.shape (some elemT)
              let p2 := p1.2.generateNodeName (cast.name ++ "_transformed")
              let p3 := p2.2.addNode p2.1 cast.opType cast.domain cast.sinceVersion
                [transposeInput] [p1.1.name] cast.attrs ""
              let p4 := p3.2.generateNodeName (transpose.name ++ "_transformed")
              let p5 := p4.2.addNode p4.1 transpose.opType transpose.domain transpose.sinceVersion
                [p1.1.name] [castOutput] transpose.attrs ""
              let g6 := (p5.2.removeNode cast.idx).removeNode transpose.idx
              .ok (some (g6, p5.1))
          | _, _ => .error (.enforce "TypeAsProto() on missing NodeArg")
        | _, _ => .error (.enforce "MutableOutputDefs()[0] / MutableInputDefs()[0]")

/-- `graph_utils::IsSupportedOptypeVersionAndDomain`. -/
def isSupportedOptypeVersionAndDomain (n : Node) (op : String) (vers : List Nat)
    (domain : String) : Bool :=
  n.opType = op && (n.sinceVersion ∈ vers) && n.domain = domain

/-- `graph_utils::IsSupportedProvider`: an empty compatible set admits every
provider. -/
def isSupportedProvider (n : Node) (compatibleEps : List String) : Bool :=
  compatibleEps.isEmpty || n.ep ∈ compatibleEps

/-- The filter of `MatmulTransposeFusion::ApplyImpl`: MatMul (opsets 9, 13,
onnx domain) or FusedMatMul (opset 1, com.microsoft domain), on a compatible
execution provider. -/
def isFusionTarget (n : Node) (eps : List String) : Bool :=
  (isSupportedOptypeVersionAndDomain n "MatMul" [9, 13] "" ||
   isSupportedOptypeVersionAndDomain n "FusedMatMul" [1] kMSDomain) &&
  isSupportedProvider n eps

/-- State threaded through the fusion traversal: the live graph, the
pass-scoped consumer-count map, the deferred-removal list (front = most
recently queued) and the modification flag. -/
structure PassState where
  g : Graph
  consumerCount : List (String × Nat)
  removedNodes : List Nat
  modified : Bool
  deriving DecidableEq

/-- The Cast-interchange attempt of `ApplyImpl` on one operand: applied when
the operand's producer exists and is a Cast node. -/
def castAttempt (g : Graph) (v : String) : Except PassErr (Option (Graph × Node)) :=
  match g.getProducerNode v with
  | some c => if c.opType = "Cast" then GetTransposeNodeFromCast g c else .ok none
  | none => .ok none

/-- Operand matching of `ApplyImpl` (lines 277–294): try the Transpose
producer on each operand; if neither matches, try the Cast interchange on
the left, then on the right. -/
def matchOperands (g : Graph) (leftInput rightInput : String) :
    Except PassErr (Graph × Option Node × Option Node) :=
  match GetTransposeNodeFromOutput g leftInput with
  | .error e => .error e
  | .ok left =>
    match GetTransposeNodeFromOutput g rightInput with
    | .error e => .error e
    | .ok right =>
      match left, right with
      | none, none =>
        match castAttempt g leftInput with
        | .error e => .error e
        | .ok (some gt) => .ok (gt.1, some gt.2, none)
        | .ok none =>
          match castAttempt g rightInput with
          | .error e => .error e
          | .ok (some gt) => .ok (gt.1, none, some gt.2)
          | .ok none => .ok (g, none, none)
      | _, _ => .ok (g, left, right)

def boolToInt (b : Bool) : Int := if b then 1 else 0

/-- The attributes of the synthesized fused node (lines 322–332): per-operand
transpose flags, XORed against any pre-existing flags when the consumer was
already a FusedMatMul, and alpha copied or defaulted to 1.0. -/
def fusedAttrs (node : Node) (hasLeft hasRight : Bool) : Except PassErr (List (String × Attr)) :=
  if node.opType = "FusedMatMul" then
    match lookupAttrImpl node.attrs "transA", lookupAttrImpl node.attrs "transB",
        lookupAttrImpl node.attrs "alpha" with
    | some a, some b, some al =>
      .ok [("transA", .int (boolToInt (Bool.xor hasLeft (a.i ≠ 0)))),
           ("transB", .int (boolToInt (Bool.xor hasRight (b.i ≠ 0)))),
           ("alpha", .float al.f)]
    | _, _, _ => .error (.enforce "GetAttributes().at() out_of_range")
  else
    .ok [("transA", .int (boolToInt hasLeft)),
         ("transB", .int (boolToInt hasRight)),
         ("alpha", .float floatOne)]

/-- Consumer-edge claiming for one matched operand (lines 300–312): query
the counter on the operand's original value, queue the matched transpose at
the front of the removal list when the count reaches zero, and step the
operand to the transpose's own input. -/
def claimOperand (g : Graph) (input0 : String) (matched : Option Node)
    (cm : List (String × Nat)) (removed : List Nat) :
    Except PassErr (String × List (String × Nat) × List Nat) :=
  match matched with
  | none => .ok (input0, cm, removed)
  | some l =>
    match UpdateConsumerCount g input0 cm with
    | .error e => .error e
    | .ok (cnt, cm') =>
      match l.inputs with
      | [] => .error (.enforce "matched->MutableInputDefs()[0]")
      | li :: _ => .ok (li, cm', if cnt = 0 then l.idx :: removed else removed)

/-- Fused-node synthesis of `ApplyImpl` (lines 300–338): claim consumer
edges of matched operands, queue fully-claimed transposes for removal,
add the FusedMatMul node and erase the original matmul. -/
def fuseStep (st : PassState) (node : Node) (leftInput0 rightInput0 : String)
    (left right : Option Node) : Except PassErr PassState :=
  match claimOperand st.g leftInput0 left st.consumerCount st.removedNodes with
  | .error e => .error e
  | .ok (leftInput, cm1, removed1) =>
    match claimOperand st.g rightInput0 right cm1 removed1 with
    | .error e => .error e
    | .ok (rightInput, cm2, removed2) =>
      match node.outputs with
      | [] => .error (.enforce "node.MutableOutputDefs()[0]")
      | outName :: _ =>
        match fusedAttrs node left.isSome right.isSome with
        | .error e => .error e
        | .ok attrs =>
          let p1 := st.g.generateNodeName "MatMul_With_Transpose"
          let p2 := p1.2.addNode p1.1 "FusedMatMul" kMSDomain 1
            [leftInput, rightInput] [outName] attrs node.ep
          .ok ⟨p2.2.removeNode node.idx, cm2, removed2, true⟩

/-- One visit of the fusion traversal: dereference the snapshot index,
filter to supported matmuls, match operands, and fuse on a match. -/
def processNode (eps : List String) (st : PassState) (i : Nat) : Except PassErr PassState :=
  match st.g.getNode i with
  | none => .error .deadIndex
  | some node =>
    if isFusionTarget node eps then
      match node.inputs with
      | l :: r :: _ =>
        match matchOperands st.g l r with
        | .error e => .error e
        | .ok (g', left, right) =>
          match left, right with
          | none, none => .ok st
          | _, _ => fuseStep { st with g := g' } node l r left right
      | _ => .error (.enforce "matmul node with fewer than 2 inputs")
    else .ok st

/-- The fusion traversal over the snapshot of node indices. -/
def applyLoop (eps : List String) : PassState → List Nat → Except PassErr PassState
  | st, [] => .ok st
  | st, i :: rest =>
    match processNode eps st i with
    | .error e => .error e
    | .ok st' => applyLoop eps st' rest

/-- `MatmulTransposeFusion::ApplyImpl`: snapshot the topological order (the
node-list order of the embedding), traverse it, then physically erase the
queued transposes.  Returns the rewritten graph and whether any rewrite
fired. -/
def ApplyImpl (eps : List String) (g : Graph) : Except PassErr (Graph × Bool) :=
  match applyLoop eps ⟨g, [], [], false⟩ (g.nodes.map (fun n => n.idx)) with
  | .error e => .error e
  | .ok st => .ok (st.removedNodes.foldl Graph.removeNode st.g, st.modified)

/-! ## Specification-side predicates for the transpose-producer test -/

/-- The spec's wording for a fusible permutation: rank at least 2, every
leading axis fixed, and exactly the last two axes swapped. -/
def SpecLastTwoSwap (perms : List Int) : Prop :=
  2 ≤ perms.length ∧
  (∀ i, i < perms.length - 2 → perms.getD i 0 = Int.ofNat i) ∧
  perms.getD (perms.length - 2) 0 = Int.ofNat (perms.length - 1) ∧
  perms.getD (perms.length - 1) 0 = Int.ofNat (perms.length - 2)

/-- The spec's wording for where a Transpose node's permutation comes from:
the `perm` attribute when present, otherwise the fully reversed axis order
of the statically known input rank. -/
def SpecPermOf (g : Graph) (t : Node) (perms : List Int) : Prop :=
  match lookupAttrImpl t.attrs "perm" with
  | some a => perms = a.getInts
  | none => ∃ arg dims, g.getNodeArg (t.inputs.getD 0 "") = some arg ∧
      arg.shape = some dims ∧ perms = ((List.range dims.length).reverse).map Int.ofNat

lemma isTransLastTwoDims_iff (perms : List Int) :
    isTransLastTwoDims perms = true ↔ SpecLastTwoSwap perms := by
  unfold isTransLastTwoDims SpecLastTwoSwap
  split
  next h =>
    simp only [Bool.false_eq_true, false_iff]
    intro hc
    exact absurd hc.1 (by omega)
  next h =>
    have hlen : 2 ≤ perms.length := by omega
    simp only [Bool.and_eq_true, List.all_eq_true, List.mem_range, decide_eq_true_eq]
    constructor
    · rintro ⟨⟨h1, h2⟩, h3⟩
      exact ⟨hlen, h1, h2, h3⟩
    · rintro ⟨-, h1, h2, h3⟩
      exact ⟨⟨h1, h2⟩, h3⟩

lemma GetTransposePerms_ok_some_iff (g : Graph) (t : Node) (h1 : t.inputs.length = 1)
    (perms : List Int) :
    GetTransposePerms g t = .ok (some perms) ↔ SpecPermOf g t perms := by
  unfold GetTransposePerms SpecPermOf
  rw [if_neg (by simp [h1])]
  cases hA : lookupAttrImpl t.attrs "perm" with
  | some a => simp [eq_comm]
  | none =>
    cases hArg : g.getNodeArg (t.inputs.getD 0 "") with
    | none => simp
    | some arg =>
      cases hS : arg.shape with
      | none => simp [hS]
      | some dims => simp [hS, eq_comm]

lemma GetTransposePerms_not_error (g : Graph) (t : Node) (h1 : t.inputs.length = 1) :
    ∃ po, GetTransposePerms g t = .ok po := by
  unfold GetTransposePerms
  rw [if_neg (by simp [h1])]
  cases lookupAttrImpl t.attrs "perm" with
  | some a => exact ⟨_, rfl⟩
  | none =>
    cases g.getNodeArg (t.inputs.getD 0 "") with
    | none => exact ⟨_, rfl⟩
    | some arg =>
      dsimp only
      cases hS : arg.shape with
      | none => exact ⟨_, rfl⟩
      | some dims => exact ⟨_, rfl⟩

lemma transposeFromOutput_some_iff (g : Graph) (v : String)
    (hwf : ∀ n, g.getProducerNode v = some n → n.opType = "Transpose" → n.inputs.length = 1)
    (t : Node) :
    GetTransposeNodeFromOutput g v = .ok (some t) ↔
      g.getProducerNode v = some t ∧ t.opType = "Transpose" ∧
      (∀ o ∈ t.outputs, o ∉ g.graphOutputs) ∧
      ∃ perms, SpecPermOf g t perms ∧ SpecLastTwoSwap perms := by
  unfold GetTransposeNodeFromOutput
  cases hp : g.getProducerNode v with
  | none => simp
  | some t0 =>
    dsimp only
    by_cases hop : t0.opType = "Transpose"
    case neg =>
      rw [if_pos hop]
      constructor
      · intro h
        exact absurd h (by simp)
      · rintro ⟨ht, hop2, -⟩
        injection ht with ht
        subst ht
        exact absurd hop2 hop
    case pos =>
      rw [if_neg (by simp [hop])]
      by_cases hout : (t0.outputs.any (fun o => decide (o ∈ g.graphOutputs))) = true
      · rw [if_pos hout]
        simp only [List.any_eq_true, decide_eq_true_eq] at hout
        obtain ⟨o, ho, hoMem⟩ := hout
        constructor
        · intro h
          exact absurd h (by simp)
        · rintro ⟨ht, -, hno, -⟩
          injection ht with ht
          subst ht
          exact absurd hoMem (hno o ho)
      · rw [if_neg hout]
        simp only [List.any_eq_true, decide_eq_true_eq, not_exists] at hout
        push_neg at hout
        have h1 : t0.inputs.length = 1 := hwf t0 hp hop
        obtain ⟨po, hpo⟩ := GetTransposePerms_not_error g t0 h1
        rw [hpo]
        cases po with
        | none =>
          dsimp only
          constructor
          · intro h
            exact absurd h (by simp)
          · rintro ⟨ht, -, -, perms, hperm, -⟩
            injection ht with ht
            subst ht
            rw [← GetTransposePerms_ok_some_iff g t0 h1 perms] at hperm
            rw [hpo] at hperm
            exact absurd hperm (by simp)
        | some perms =>
          dsimp only
          by_cases hswap : isTransLastTwoDims perms = true
          · rw [if_pos hswap]
            constructor
            · intro h
              have ht : t0 = t := by
                have := h
                simp only [Except.ok.injEq, Option.some.injEq] at this
                exact this
              subst ht
              refine ⟨rfl, hop, hout, perms, ?_, (isTransLastTwoDims_iff perms).mp hswap⟩
              exact (GetTransposePerms_ok_some_iff g t0 h1 perms).mp hpo
            · rintro ⟨ht, -, -, -⟩
              injection ht with ht
              subst ht
              rfl
          · rw [if_neg hswap]
            constructor
            · intro h
              exact absurd h (by simp)
            · rintro ⟨ht, -, -, perms', hperm, hswap'⟩
              injection ht with ht
              subst ht
              rw [← GetTransposePerms_ok_some_iff g t0 h1 perms'] at hperm
              rw [hpo] at hperm
              simp only [Except.ok.injEq, Option.some.injEq] at hperm
              subst hperm
              exact absurd ((isTransLastTwoDims_iff perms).mpr hswap') hswap

lemma GetTransposePerms_rank_unknown (g : Graph) (t : Node) (h1 : t.inputs.length = 1)
    (hA : lookupAttrImpl t.attrs "perm" = none)
    (hS : (g.getNodeArg (t.inputs.getD 0 "")).bind NodeArg.shape = none) :
    GetTransposePerms g t = .ok none := by
  unfold GetTransposePerms
  rw [if_neg (by simp [h1]), hA]
  cases hArg : g.getNodeArg (t.inputs.getD 0 "") with
  | none => rfl
  | some arg =>
    dsimp only
    rw [hArg] at hS
    simp only [Option.some_bind] at hS
    rw [hS]

lemma transposeFromOutput_rank_unknown (g : Graph) (v : String) (t : Node)
    (hp : g.getProducerNode v = some t) (hop : t.opType = "Transpose")
    (h1 : t.inputs.length = 1)
    (hA : lookupAttrImpl t.attrs "perm" = none)
    (hS : (g.getNodeArg (t.inputs.getD 0 "")).bind NodeArg.shape = none) :
    GetTransposeNodeFromOutput g v = .ok none := by
  unfold GetTransposeNodeFromOutput
  rw [hp]
  dsimp only
  rw [if_neg (by simp [hop])]
  by_cases hout : (t.outputs.any (fun o => decide (o ∈ g.graphOutputs))) = true
  · rw [if_pos hout]
  · rw [if_neg hout, GetTransposePerms_rank_unknown g t h1 hA hS]

/-- Concrete 3-D transpose with perm `[1,0,2]` (not a last-two swap). -/
def c3_tA : Node := ⟨0, "TA", "Transpose", "", 13, ["x"], ["v"], [("perm", .ints [1, 0, 2])], ""⟩

/-- One-node graph around `c3_tA`. -/
def c3_gA : Graph := ⟨[c3_tA], [], ["x"], [], 1, 0⟩

/-- Concrete 3-D transpose with perm `[0,2,1]` (a last-two swap). -/
def c3_tB : Node := ⟨0, "TB", "Transpose", "", 13, ["x"], ["v"], [("perm", .ints [0, 2, 1])], ""⟩

/-- One-node graph around `c3_tB`. -/
def c3_gB : Graph := ⟨[c3_tB], [], ["x"], [], 1, 0⟩

/-- C3: `GetTransposeNodeFromOutput` returns the producing node iff the
producer's operator type is Transpose, none of its outputs is a declared
graph output, and its permutation — from the `perm` attribute when present,
else the fully reversed axis order when the input rank is statically known,
with a non-match (not an error) when the rank is unknown — has rank at
least 2, fixes every leading axis and swaps exactly the last two axes;
in particular perm `[1,0,2]` does not match and perm `[0,2,1]` matches. -/
theorem C3_transpose_producer_match :
    (∀ (g : Graph) (v : String),
      (∀ n, g.getProducerNode v = some n → n.opType = "Transpose" → n.inputs.length = 1) →
      ∀ t : Node,
        GetTransposeNodeFromOutput g v = .ok (some t) ↔
          g.getProducerNode v = some t ∧ t.opType = "Transpose" ∧
          (∀ o ∈ t.outputs, o ∉ g.graphOutputs) ∧
          ∃ perms, SpecPermOf g t perms ∧ SpecLastTwoSwap perms) ∧
    (∀ (g : Graph) (v : String) (t : Node),
      g.getProducerNode v = some t → t.opType = "Transpose" → t.inputs.length = 1 →
      lookupAttrImpl t.attrs "perm" = none →
      (g.getNodeArg (t.inputs.getD 0 "")).bind NodeArg.shape = none →
      GetTransposeNodeFromOutput g v = .ok none) ∧
    GetTransposeNodeFromOutput c3_gA "v" = .ok none ∧
    GetTransposeNodeFromOutput c3_gB "v" = .ok (some c3_tB) :=
  ⟨transposeFromOutput_some_iff, transposeFromOutput_rank_unknown, by decide, by decide⟩

/-- Witness for C3: the iff applied at the concrete matching graph. -/
theorem C3_transpose_producer_match_witness :
    Graph.getProducerNode c3_gB "v" = some c3_tB ∧ c3_tB.opType = "Transpose" ∧
      (∀ o ∈ c3_tB.outputs, o ∉ c3_gB.graphOutputs) ∧
      ∃ perms, SpecPermOf c3_gB c3_tB perms ∧ SpecLastTwoSwap perms :=
  (C3_transpose_producer_match.1 c3_gB "v"
    (fun n h _ => by
      have hv : c3_gB.getProducerNode "v" = some c3_tB := by decide
      rw [hv] at h
      injection h with h
      subst h
      decide) c3_tB).mp (by decide)

/-! ## C6: consumer-counter semantics and removal gating -/

/-- Concrete transpose feeding both a MatMul and an unrelated Relu. -/
def c6_t : Node := ⟨0, "T", "Transpose", "", 13, ["x"], ["t"], [("perm", .ints [1, 0])], ""⟩

/-- The MatMul consuming the transpose. -/
def c6_m : Node := ⟨1, "M", "MatMul", "", 13, ["t", "w"], ["y"], [], ""⟩

/-- The unrelated second consumer of the transpose. -/
def c6_u : Node := ⟨2, "U", "Relu", "", 13, ["t"], ["u"], [], ""⟩

/-- Graph for the multi-consumer scenario. -/
def c6_g : Graph := ⟨[c6_t, c6_m, c6_u], [], ["x", "w"], ["y", "u"], 3, 0⟩

/-- The fused node the pass synthesizes in the scenario. -/
def c6_fused : Node := ⟨3, "MatMul_With_Transpose", "FusedMatMul", kMSDomain, 1, ["x", "w"], ["y"],
  [("transA", .int 1), ("transB", .int 0), ("alpha", .float floatOne)], ""⟩

/-- The scenario graph after the pass: the transpose survives, the matmul is
replaced by the fused node. -/
def c6_gAfter : Graph := ⟨[c6_t, c6_u, c6_fused], [], ["x", "w"], ["y", "u"], 4, 0⟩

/-- C6: the first `UpdateConsumerCount` query for a value records and
returns its live consumer count at query time minus one; each later query
decrements the record by one; a transpose feeding both the target matmul
and an unrelated second node is rewritten around but remains in the
graph. -/
theorem C6_consumer_count_semantics :
    (∀ (g : Graph) (target : String) (cm : List (String × Nat)),
      cm.find? (fun p => p.1 = target) = none →
      0 < (g.getConsumerNodes target).length →
      UpdateConsumerCount g target cm =
        .ok ((g.getConsumerNodes target).length - 1,
             (target, (g.getConsumerNodes target).length - 1) :: cm)) ∧
    (∀ (g : Graph) (target : String) (cm : List (String × Nat)) (p : String × Nat),
      cm.find? (fun q => q.1 = target) = some p →
      0 < (g.getConsumerNodes target).length →
      0 < p.2 → p.2 < SIZE_T_MOD →
      UpdateConsumerCount g target cm =
        .ok (p.2 - 1, cm.map (fun q => if q.1 = target then (q.1, p.2 - 1) else q))) ∧
    ApplyImpl [] c6_g = .ok (c6_gAfter, true) ∧
    c6_t ∈ c6_gAfter.nodes ∧
    (∀ n ∈ c6_gAfter.nodes, n.opType ≠ "MatMul") := by
  refine ⟨?_, ?_, by decide, by decide, by decide⟩
  · intro g target cm hfind hpos
    unfold UpdateConsumerCount
    rw [if_neg (by omega), hfind]
  · intro g target cm p hfind hpos hp hlt
    unfold UpdateConsumerCount
    rw [if_neg (by omega), hfind]
    dsimp only
    have hmod : SIZE_T_MOD = 18446744073709551616 := by norm_num [SIZE_T_MOD]
    have : (p.2 + (SIZE_T_MOD - 1)) % SIZE_T_MOD = p.2 - 1 := by
      rw [hmod] at hlt ⊢
      omega
    rw [this]

/-- Witness for C6: the first query on the scenario's shared value returns
2 − 1 = 1 and records it. -/
theorem C6_consumer_count_semantics_witness :
    UpdateConsumerCount c6_g "t" [] =
      .ok ((c6_g.getConsumerNodes "t").length - 1,
           ("t", (c6_g.getConsumerNodes "t").length - 1) :: []) :=
  C6_consumer_count_semantics.1 c6_g "t" [] (by decide) (by decide)

/-! ## C5: transpose-flag composition of the fused node -/

lemma generateNodeName_nodes (g : Graph) (b : String) :
    (g.generateNodeName b).2.nodes = g.nodes := by
  unfold Graph.generateNodeName
  split <;> rfl

lemma generateNodeName_nextNodeIdx (g : Graph) (b : String) :
    (g.generateNodeName b).2.nextNodeIdx = g.nextNodeIdx := by
  unfold Graph.generateNodeName
  split <;> rfl

/-- Any successful `fuseStep` adds exactly one FusedMatMul node in the
com.microsoft domain carrying the attributes computed by `fusedAttrs` and
the original node's execution provider. -/
lemma fuseStep_adds_fused (st : PassState) (node : Node) (li ri : String)
    (left right : Option Node) (st' : PassState) (attrs : List (String × Attr))
    (hA : fusedAttrs node left.isSome right.isSome = .ok attrs)
    (hidx : node.idx < st.g.nextNodeIdx)
    (h : fuseStep st node li ri left right = .ok st') :
    ∃ f ∈ st'.g.nodes, f.opType = "FusedMatMul" ∧ f.domain = kMSDomain ∧
      f.ep = node.ep ∧ f.attrs = attrs := by
  unfold fuseStep at h
  cases hc1 : claimOperand st.g li left st.consumerCount st.removedNodes with
  | error e => rw [hc1] at h; exact absurd h (by simp)
  | ok s1 =>
    obtain ⟨liv, cm1, rm1⟩ := s1
    rw [hc1] at h
    dsimp only at h
    cases hc2 : claimOperand st.g ri right cm1 rm1 with
    | error e => rw [hc2] at h; exact absurd h (by simp)
    | ok s2 =>
      obtain ⟨riv, cm2, rm2⟩ := s2
      rw [hc2] at h
      dsimp only at h
      cases ho : node.outputs with
      | nil => rw [ho] at h; exact absurd h (by simp)
      | cons o os =>
        rw [ho, hA] at h
        dsimp only at h
        injection h with h
        subst h
        refine ⟨⟨(st.g.generateNodeName "MatMul_With_Transpose").2.nextNodeIdx,
                 (st.g.generateNodeName "MatMul_With_Transpose").1, "FusedMatMul", kMSDomain, 1,
                 [liv, riv], [o], attrs, node.ep⟩, ?_, rfl, rfl, rfl, rfl⟩
        apply List.mem_filter.mpr
        constructor
        · exact List.mem_append_right _ (List.mem_singleton_self _)
        · simp only [decide_eq_true_eq, ne_eq]
          rw [generateNodeName_nextNodeIdx]
          omega

/-- Concrete left transpose for the re-fusion scenario. -/
def c5_t : Node := ⟨0, "T", "Transpose", "", 13, ["x"], ["t"], [("perm", .ints [1, 0])], ""⟩

/-- Concrete already-fused consumer with `transA = 1` and alpha token 42. -/
def c5_m : Node := ⟨1, "F", "FusedMatMul", kMSDomain, 1, ["t", "w"], ["y"],
  [("transA", .int 1), ("transB", .int 0), ("alpha", .float 42)], ""⟩

/-- Graph for the re-fusion scenario. -/
def c5_g : Graph := ⟨[c5_t, c5_m], [], ["x", "w"], ["y"], 2, 0⟩

/-- Expected result: `transA` XORed back to 0, alpha untouched. -/
def c5_fused : Node := ⟨2, "MatMul_With_Transpose", "FusedMatMul", kMSDomain, 1, ["x", "w"], ["y"],
  [("transA", .int 0), ("transB", .int 0), ("alpha", .float 42)], ""⟩

/-- The re-fusion scenario graph after the pass. -/
def c5_gAfter : Graph := ⟨[c5_fused], [], ["x", "w"], ["y"], 3, 0⟩

/-- The pass state produced by `fuseStep` in the re-fusion scenario. -/
def c5_stAfter : PassState :=
  ⟨⟨[c5_t, c5_fused], [], ["x", "w"], ["y"], 3, 0⟩, [("t", 0)], [0], true⟩

/-- C5: when the rewritten consumer is already a FusedMatMul the new
`transA` (resp. `transB`) is the old flag XOR whether a left (resp. right)
transpose was matched and alpha is copied; for a plain MatMul the flags are
the per-operand match results and alpha defaults to 1.0; in particular an
already-fused `transA = 1` node with a newly matched left transpose yields
`transA = 0` with alpha unchanged. -/
theorem C5_transpose_flag_composition :
    (∀ (st : PassState) (node : Node) (li ri : String) (left right : Option Node)
       (st' : PassState) (a b al : Attr),
      node.opType = "FusedMatMul" →
      lookupAttrImpl node.attrs "transA" = some a →
      lookupAttrImpl node.attrs "transB" = some b →
      lookupAttrImpl node.attrs "alpha" = some al →
      node.idx < st.g.nextNodeIdx →
      fuseStep st node li ri left right = .ok st' →
      ∃ f ∈ st'.g.nodes, f.opType = "FusedMatMul" ∧ f.ep = node.ep ∧
        f.attrs = [("transA", .int (boolToInt (Bool.xor left.isSome (a.i ≠ 0)))),
                   ("transB", .int (boolToInt (Bool.xor right.isSome (b.i ≠ 0)))),
                   ("alpha", .float al.f)]) ∧
    (∀ (st : PassState) (node : Node) (li ri : String) (left right : Option Node)
       (st' : PassState),
      node.opType = "MatMul" →
      node.idx < st.g.nextNodeIdx →
      fuseStep st node li ri left right = .ok st' →
      ∃ f ∈ st'.g.nodes, f.opType = "FusedMatMul" ∧ f.ep = node.ep ∧
        f.attrs = [("transA", .int (boolToInt left.isSome)),
                   ("transB", .int (boolToInt right.isSome)),
                   ("alpha", .float floatOne)]) ∧
    ApplyImpl [] c5_g = .ok (c5_gAfter, true) := by
  refine ⟨?_, ?_, by decide⟩
  · intro st node li ri left right st' a b al hop hA1 hA2 hA3 hidx h
    have hA : fusedAttrs node left.isSome right.isSome =
        .ok [("transA", .int (boolToInt (Bool.xor left.isSome (a.i ≠ 0)))),
             ("transB", .int (boolToInt (Bool.xor right.isSome (b.i ≠ 0)))),
             ("alpha", .float al.f)] := by
      unfold fusedAttrs
      rw [if_pos hop, hA1, hA2, hA3]
    obtain ⟨f, hf, h1, h2, h3, h4⟩ := fuseStep_adds_fused st node li ri left right st' _ hA hidx h
    exact ⟨f, hf, h1, h3, h4⟩
  · intro st node li ri left right st' hop hidx h
    have hA : fusedAttrs node left.isSome right.isSome =
        .ok [("transA", .int (boolToInt left.isSome)),
             ("transB", .int (boolToInt right.isSome)),
             ("alpha", .float floatOne)] := by
      unfold fusedAttrs
      rw [if_neg (by rw [hop]; decide)]
    obtain ⟨f, hf, h1, h2, h3, h4⟩ := fuseStep_adds_fused st node li ri left right st' _ hA hidx h
    exact ⟨f, hf, h1, h3, h4⟩

/-- Witness for C5: the FusedMatMul branch applied in the concrete
re-fusion scenario. -/
theorem C5_transpose_flag_composition_witness :
    ∃ f ∈ c5_stAfter.g.nodes, f.opType = "FusedMatMul" ∧ f.ep = c5_m.ep ∧
      f.attrs = [("transA", .int (boolToInt (Bool.xor (some c5_t).isSome ((Attr.int 1).i ≠ 0)))),
                 ("transB", .int (boolToInt (Bool.xor (none : Option Node).isSome ((Attr.int 0).i ≠ 0)))),
                 ("alpha", .float (Attr.float 42).f)] :=
  C5_transpose_flag_composition.1 ⟨c5_g, [], [], false⟩ c5_m "t" "w" (some c5_t) none c5_stAfter
    (.int 1) (.int 0) (.float 42) rfl rfl rfl rfl (by decide) (by decide)

/-! ## C4: Cast–Transpose interchange -/

lemma generateNodeName_nodeArgs (g : Graph) (b : String) :
    (g.generateNodeName b).2.nodeArgs = g.nodeArgs := by
  unfold Graph.generateNodeName
  split <;> rfl

/-- Non-match direction: when the operand's transpose test fails, the
interchange reports no match (and, being a pure function of the untouched
graph, leaves it unchanged). -/
lemma getTransposeNodeFromCast_noTrans (g : Graph) (cast : Node) (ci : String)
    (cir : List String) (hin : cast.inputs = ci :: cir)
    (hT : GetTransposeNodeFromOutput g ci = .ok none) :
    GetTransposeNodeFromCast g cast = .ok none := by
  unfold GetTransposeNodeFromCast
  rw [hin]
  dsimp only
  rw [hT]

/-- Non-match direction: fan-out on either original node blocks the
interchange. -/
lemma getTransposeNodeFromCast_fanOut (g : Graph) (cast T : Node) (ci : String)
    (cir : List String) (hin : cast.inputs = ci :: cir)
    (hT : GetTransposeNodeFromOutput g ci = .ok (some T))
    (hfan : outputEdgesCount g cast ≠ 1 ∨ outputEdgesCount g T ≠ 1) :
    GetTransposeNodeFromCast g cast = .ok none := by
  unfold GetTransposeNodeFromCast
  rw [hin]
  dsimp only
  rw [hT]
  dsimp only
  rw [if_pos hfan]

/-- Match direction of the interchange: with single consumer edges on both
nodes and a matching transpose, a new Cast consuming the transpose's input
is created whose output value carries that input's shape and the original
cast's output element type, a new Transpose consuming it produces the
original cast's output value, and both original nodes are erased. -/
lemma getTransposeNodeFromCast_match (g : Graph) (cast T : Node)
    (ci co ti : String) (cir cor tir : List String)
    (coArg tiArg : NodeArg) (et : Int)
    (hin : cast.inputs = ci :: cir)
    (hT : GetTransposeNodeFromOutput g ci = .ok (some T))
    (he1 : outputEdgesCount g cast = 1)
    (he2 : outputEdgesCount g T = 1)
    (hout : cast.outputs = co :: cor)
    (hTin : T.inputs = ti :: tir)
    (hcoA : g.getNodeArg co = some coArg)
    (het : coArg.elemType = some et)
    (htiA : g.getNodeArg ti = some tiArg)
    (hfresh : g.getNodeArg (co ++ "_transformed") = none)
    (hcix : cast.idx < g.nextNodeIdx) (hTix : T.idx < g.nextNodeIdx) :
    ∃ g' nt c',
      GetTransposeNodeFromCast g cast = .ok (some (g', nt)) ∧
      g'.getNodeArg (co ++ "_transformed") = some ⟨co ++ "_transformed", tiArg.shape, some et⟩ ∧
      c' ∈ g'.nodes ∧ c'.opType = cast.opType ∧ c'.inputs = [ti] ∧
      c'.outputs = [co ++ "_transformed"] ∧ c'.attrs = cast.attrs ∧
      nt ∈ g'.nodes ∧ nt.opType = T.opType ∧ nt.inputs = [co ++ "_transformed"] ∧
      nt.outputs = [co] ∧ nt.attrs = T.attrs ∧
      g'.nodes = ((g.nodes.filter (fun n => n.idx ≠ cast.idx)).filter
        (fun n => n.idx ≠ T.idx)) ++ [c', nt] := by
  have hp1 : g.getOrCreateNodeArg (co ++ "_transformed") tiArg.shape (some et) =
      (⟨co ++ "_transformed", tiArg.shape, some et⟩,
       { g with nodeArgs := g.nodeArgs ++ [⟨co ++ "_transformed", tiArg.shape, some et⟩] }) := by
    unfold Graph.getOrCreateNodeArg
    rw [hfresh]
  have hEq : GetTransposeNodeFromCast g cast =
      (let A : NodeArg := ⟨co ++ "_transformed", tiArg.shape, some et⟩
       let g1 : Graph := { g with nodeArgs := g.nodeArgs ++ [A] }
       let P := g1.generateNodeName (cast.name ++ "_transformed")
       let c' : Node := ⟨P.2.nextNodeIdx, P.1, cast.opType, cast.domain, cast.sinceVersion,
         [ti], [co ++ "_transformed"], cast.attrs, ""⟩
       let g3 : Graph :=
         { P.2 with
             nodes := P.2.nodes ++ [c'],
             nextNodeIdx := P.2.nextNodeIdx + 1 }
       let Q := g3.generateNodeName (T.name ++ "_transformed")
       let nt : Node := ⟨Q.2.nextNodeIdx, Q.1, T.opType, T.domain, T.sinceVersion,
         [co ++ "_transformed"], [co], T.attrs, ""⟩
       let g5 : Graph :=
         { Q.2 with
             nodes := Q.2.nodes ++ [nt],
             nextNodeIdx := Q.2.nextNodeIdx + 1 }
       .ok (some ((g5.removeNode cast.idx).removeNode T.idx, nt))) := by
    unfold GetTransposeNodeFromCast
    rw [hin]
    dsimp only
    rw [hT]
    dsimp only
    rw [if_neg (by simp [he1, he2]), hout, hTin]
    dsimp only
    rw [hcoA, htiA]
    dsimp only
    rw [het]
    dsimp only
    rw [hp1]
    rfl
  set A : NodeArg := ⟨co ++ "_transformed", tiArg.shape, some et⟩ with hA
  set g1 : Graph := { g with nodeArgs := g.nodeArgs ++ [A] } with hg1
  set P := g1.generateNodeName (cast.name ++ "_transformed") with hP
  set c' : Node := ⟨P.2.nextNodeIdx, P.1, cast.opType, cast.domain, cast.sinceVersion,
    [ti], [co ++ "_transformed"], cast.attrs, ""⟩ with hc
  set g3 : Graph :=
    { P.2 with
        nodes := P.2.nodes ++ [c'],
        nextNodeIdx := P.2.nextNodeIdx + 1 } with hg3
  set Q := g3.generateNodeName (T.name ++ "_transformed") with hQ
  set nt : Node := ⟨Q.2.nextNodeIdx, Q.1, T.opType, T.domain, T.sinceVersion,
    [co ++ "_transformed"], [co], T.attrs, ""⟩ with hnt
  set g5 : Graph :=
    { Q.2 with
        nodes := Q.2.nodes ++ [nt],
        nextNodeIdx := Q.2.nextNodeIdx + 1 } with hg5
  have hPn : P.2.nextNodeIdx = g.nextNodeIdx := by
    rw [hP, generateNodeName_nextNodeIdx]
  have hQn : Q.2.nextNodeIdx = g.nextNodeIdx + 1 := by
    rw [hQ, generateNodeName_nextNodeIdx]
    show P.2.nextNodeIdx + 1 = g.nextNodeIdx + 1
    rw [hPn]
  have hcidx : c'.idx = g.nextNodeIdx := hPn
  have hntidx : nt.idx = g.nextNodeIdx + 1 := hQn
  have hg5nodes : g5.nodes = g.nodes ++ [c', nt] := by
    show Q.2.nodes ++ [nt] = _
    rw [hQ, generateNodeName_nodes]
    show (P.2.nodes ++ [c']) ++ [nt] = _
    rw [hP, generateNodeName_nodes]
    show (g.nodes ++ [c']) ++ [nt] = _
    rw [List.append_assoc]
    rfl
  have hb1 : (decide (c'.idx ≠ cast.idx)) = true := by
    rw [hcidx]
    simp only [decide_eq_true_eq]
    omega
  have hb2 : (decide (nt.idx ≠ cast.idx)) = true := by
    rw [hntidx]
    simp only [decide_eq_true_eq]
    omega
  have hb3 : (decide (c'.idx ≠ T.idx)) = true := by
    rw [hcidx]
    simp only [decide_eq_true_eq]
    omega
  have hb4 : (decide (nt.idx ≠ T.idx)) = true := by
    rw [hntidx]
    simp only [decide_eq_true_eq]
    omega
  have hf1 : List.filter (fun n => decide (n.idx ≠ cast.idx)) [c', nt] = [c', nt] := by
    apply List.filter_eq_self.mpr
    intro a ha
    simp only [List.mem_cons, List.not_mem_nil, or_false] at ha
    rcases ha with rfl | rfl
    · exact hb1
    · exact hb2
  have hf2 : List.filter (fun n => decide (n.idx ≠ T.idx)) [c', nt] = [c', nt] := by
    apply List.filter_eq_self.mpr
    intro a ha
    simp only [List.mem_cons, List.not_mem_nil, or_false] at ha
    rcases ha with rfl | rfl
    · exact hb3
    · exact hb4
  have hNodes : ((g5.removeNode cast.idx).removeNode T.idx).nodes =
      ((g.nodes.filter (fun n => n.idx ≠ cast.idx)).filter (fun n => n.idx ≠ T.idx))
        ++ [c', nt] := by
    show ((g5.nodes.filter (fun n => decide (n.idx ≠ cast.idx))).filter
      (fun n => decide (n.idx ≠ T.idx))) = _
    rw [hg5nodes, List.filter_append, hf1, List.filter_append, hf2]
  have hArgs : ((g5.removeNode cast.idx).removeNode T.idx).nodeArgs = g.nodeArgs ++ [A] := by
    show g5.nodeArgs = _
    show Q.2.nodeArgs = _
    rw [hQ, generateNodeName_nodeArgs]
    show P.2.nodeArgs = _
    rw [hP, generateNodeName_nodeArgs]
  refine ⟨(g5.removeNode cast.idx).removeNode T.idx, nt, c', hEq, ?_, ?_, rfl, rfl, rfl, rfl,
    ?_, rfl, rfl, rfl, rfl, hNodes⟩
  · unfold Graph.getNodeArg at hfresh ⊢
    rw [hArgs, List.find?_append, hfresh]
    simp
  · rw [hNodes]
    simp
  · rw [hNodes]
    simp

/-- Concrete transpose for the interchange witness. -/
def c4_T : Node := ⟨0, "T", "Transpose", "", 13, ["x"], ["t"], [("perm", .ints [1, 0])], ""⟩

/-- Concrete cast consuming the transpose. -/
def c4_C : Node := ⟨1, "C", "Cast", "", 13, ["t"], ["c"], [("to", .int 1)], ""⟩

/-- Concrete matmul consuming the cast. -/
def c4_M : Node := ⟨2, "M", "MatMul", "", 13, ["c", "w"], ["y"], [], ""⟩

/-- Arg of the transpose input in the interchange witness. -/
def c4_tiArg : NodeArg := ⟨"x", some [2, 3], some 10⟩

/-- Arg of the cast output in the interchange witness. -/
def c4_coArg : NodeArg := ⟨"c", some [3, 2], some 1⟩

/-- Graph for the interchange witness. -/
def c4_g : Graph :=
  ⟨[c4_T, c4_C, c4_M],
   [c4_tiArg, ⟨"t", some [3, 2], some 10⟩, c4_coArg, ⟨"w", some [2, 4], some 1⟩],
   ["x", "w"], ["y"], 3, 0⟩

/-- C4: the Cast–Transpose interchange fires iff both original nodes have
exactly one consumer edge and the transpose matches the producer test; on a
match it creates a new cast consuming the transpose's input whose output
value has that input's shape but the cast's output element type, and a new
transpose producing the cast's original output value, erasing both original
nodes; otherwise it reports no match and the graph is untouched. -/
theorem C4_cast_transpose_interchange :
    (∀ (g : Graph) (cast T : Node) (ci co ti : String) (cir cor tir : List String)
       (coArg tiArg : NodeArg) (et : Int),
      cast.inputs = ci :: cir →
      GetTransposeNodeFromOutput g ci = .ok (some T) →
      outputEdgesCount g cast = 1 →
      outputEdgesCount g T = 1 →
      cast.outputs = co :: cor →
      T.inputs = ti :: tir →
      g.getNodeArg co = some coArg →
      coArg.elemType = some et →
      g.getNodeArg ti = some tiArg →
      g.getNodeArg (co ++ "_transformed") = none →
      cast.idx < g.nextNodeIdx → T.idx < g.nextNodeIdx →
      ∃ g' nt c',
        GetTransposeNodeFromCast g cast = .ok (some (g', nt)) ∧
        g'.getNodeArg (co ++ "_transformed") =
          some ⟨co ++ "_transformed", tiArg.shape, some et⟩ ∧
        c' ∈ g'.nodes ∧ c'.opType = cast.opType ∧ c'.inputs = [ti] ∧
        c'.outputs = [co ++ "_transformed"] ∧ c'.attrs = cast.attrs ∧
        nt ∈ g'.nodes ∧ nt.opType = T.opType ∧ nt.inputs = [co ++ "_transformed"] ∧
        nt.outputs = [co] ∧ nt.attrs = T.attrs ∧
        g'.nodes = ((g.nodes.filter (fun n => n.idx ≠ cast.idx)).filter
          (fun n => n.idx ≠ T.idx)) ++ [c', nt]) ∧
    (∀ (g : Graph) (cast : Node) (ci : String) (cir : List String),
      cast.inputs = ci :: cir →
      GetTransposeNodeFromOutput g ci = .ok none →
      GetTransposeNodeFromCast g cast = .ok none) ∧
    (∀ (g : Graph) (cast T : Node) (ci : String) (cir : List String),
      cast.inputs = ci :: cir →
      GetTransposeNodeFromOutput g ci = .ok (some T) →
      (outputEdgesCount g cast ≠ 1 ∨ outputEdgesCount g T ≠ 1) →
      GetTransposeNodeFromCast g cast = .ok none) :=
  ⟨getTransposeNodeFromCast_match, getTransposeNodeFromCast_noTrans,
   getTransposeNodeFromCast_fanOut⟩

/-- Witness for C4: the match direction applied at the concrete
Transpose→Cast→MatMul graph. -/
theorem C4_cast_transpose_interchange_witness :
    ∃ g' nt c',
      GetTransposeNodeFromCast c4_g c4_C = .ok (some (g', nt)) ∧
      g'.getNodeArg ("c" ++ "_transformed") =
        some ⟨"c" ++ "_transformed", c4_tiArg.shape, some 1⟩ ∧
      c' ∈ g'.nodes ∧ c'.opType = c4_C.opType ∧ c'.inputs = ["x"] ∧
      c'.outputs = ["c" ++ "_transformed"] ∧ c'.attrs = c4_C.attrs ∧
      nt ∈ g'.nodes ∧ nt.opType = c4_T.opType ∧ nt.inputs = ["c" ++ "_transformed"] ∧
      nt.outputs = ["c"] ∧ nt.attrs = c4_T.attrs ∧
      g'.nodes = ((c4_g.nodes.filter (fun n => n.idx ≠ c4_C.idx)).filter
        (fun n => n.idx ≠ c4_T.idx)) ++ [c', nt] :=
  C4_cast_transpose_interchange.1 c4_g c4_C c4_T "t" "c" "x" [] [] [] c4_coArg c4_tiArg 1
    rfl (by decide) (by decide) (by decide) rfl rfl (by decide) rfl (by decide) (by decide)
    (by decide) (by decide)

/-! ## C1: idempotence of the pass -/

/-- The Cast-interchange attempt finds nothing at `v`: no producer, producer
not a Cast, or the interchange reports no match. -/
def CastAttemptNoMatch (g : Graph) (v : String) : Prop :=
  match g.getProducerNode v with
  | some c => c.opType = "Cast" → GetTransposeNodeFromCast g c = .ok none
  | none => True

/-- No fusion rewrite applies at node `n` of graph `g`: either the node is
not a supported matmul, or it has two operands on which both the transpose
test and the cast interchange fail. -/
def NoMatchAt (eps : List String) (g : Graph) (n : Node) : Prop :=
  isFusionTarget n eps = true →
  ∃ l r rest, n.inputs = l :: r :: rest ∧
    GetTransposeNodeFromOutput g l = .ok none ∧
    GetTransposeNodeFromOutput g r = .ok none ∧
    CastAttemptNoMatch g l ∧ CastAttemptNoMatch g r

lemma castAttempt_none (g : Graph) (v : String) (h : CastAttemptNoMatch g v) :
    castAttempt g v = .ok none := by
  unfold castAttempt
  unfold CastAttemptNoMatch at h
  cases hp : g.getProducerNode v with
  | none => rfl
  | some c =>
    rw [hp] at h
    dsimp only at h ⊢
    by_cases hcast : c.opType = "Cast"
    · rw [if_pos hcast]
      exact h hcast
    · rw [if_neg hcast]

lemma matchOperands_none (g : Graph) (l r : String)
    (hl : GetTransposeNodeFromOutput g l = .ok none)
    (hr : GetTransposeNodeFromOutput g r = .ok none)
    (hcl : CastAttemptNoMatch g l) (hcr : CastAttemptNoMatch g r) :
    matchOperands g l r = .ok (g, none, none) := by
  unfold matchOperands
  rw [hl]
  dsimp only
  rw [hr]
  dsimp only
  rw [castAttempt_none g l hcl]
  dsimp only
  rw [castAttempt_none g r hcr]

lemma processNode_noMatch (eps : List String) (st : PassState) (i : Nat)
    (h : ∀ n ∈ st.g.nodes, NoMatchAt eps st.g n) (hi : ∃ n ∈ st.g.nodes, n.idx = i) :
    processNode eps st i = .ok st := by
  unfold processNode
  cases hn : st.g.getNode i with
  | none =>
    exfalso
    obtain ⟨n, hmem, hidx⟩ := hi
    unfold Graph.getNode at hn
    have := List.find?_eq_none.mp hn n hmem
    simp [hidx] at this
  | some node =>
    dsimp only
    have hmem : node ∈ st.g.nodes := by
      unfold Graph.getNode at hn
      exact List.mem_of_find?_eq_some hn
    by_cases ht : isFusionTarget node eps = true
    · rw [if_pos ht]
      obtain ⟨l, r, rest, hinputs, hl, hr, hcl, hcr⟩ := h node hmem ht
      rw [hinputs]
      dsimp only
      rw [matchOperands_none st.g l r hl hr hcl hcr]
    · rw [if_neg ht]

lemma applyLoop_fixed (eps : List String) (st : PassState) (L : List Nat)
    (h : ∀ i ∈ L, processNode eps st i = .ok st) :
    applyLoop eps st L = .ok st := by
  induction L with
  | nil => rfl
  | cons i rest ih =>
    unfold applyLoop
    rw [h i (List.mem_cons_self i rest)]
    exact ih (fun j hj => h j (List.mem_cons_of_mem i hj))

/-- First chained transpose of the idempotence counterexample. -/
def c1_t1 : Node := ⟨0, "T1", "Transpose", "", 13, ["x"], ["t1"], [("perm", .ints [1, 0])], ""⟩

/-- Second chained transpose. -/
def c1_t2 : Node := ⟨1, "T2", "Transpose", "", 13, ["t1"], ["t2"], [("perm", .ints [1, 0])], ""⟩

/-- The matmul consuming the chained transposes. -/
def c1_m : Node := ⟨2, "M", "MatMul", "", 13, ["t2", "w"], ["y"], [], ""⟩

/-- Counterexample graph: Transpose → Transpose → MatMul. -/
def c1_g0 : Graph := ⟨[c1_t1, c1_t2, c1_m], [], ["x", "w"], ["y"], 3, 0⟩

/-- Result of the first run: one transpose absorbed, one remaining. -/
def c1_g1 : Graph :=
  ⟨[c1_t1,
    ⟨3, "MatMul_With_Transpose", "FusedMatMul", kMSDomain, 1, ["t1", "w"], ["y"],
     [("transA", .int 1), ("transB", .int 0), ("alpha", .float floatOne)], ""⟩],
   [], ["x", "w"], ["y"], 4, 0⟩

/-- Result of the second run: the second run fires again. -/
def c1_g2 : Graph :=
  ⟨[⟨4, "MatMul_With_Transpose_0", "FusedMatMul", kMSDomain, 1, ["x", "w"], ["y"],
     [("transA", .int 0), ("transB", .int 0), ("alpha", .float floatOne)], ""⟩],
   [], ["x", "w"], ["y"], 5, 1⟩

/-- Counterexample to C1 as stated: on the chained-transpose graph the
second run of the pass rewrites again (modified = true) and changes the
graph. -/
theorem C1_counterexample_second_run_fires :
    ApplyImpl [] c1_g0 = .ok (c1_g1, true) ∧
    ApplyImpl [] c1_g1 = .ok (c1_g2, true) ∧
    c1_g2 ≠ c1_g1 :=
  ⟨by decide, by decide, by decide⟩

/-- C1 (amended): on any graph in which no node matches the fusion patterns
— in particular on any fixed point of the pass — `ApplyImpl` returns the
graph identical and reports that no rewrite fired.  A second run directly
after a first one can still fire (see the counterexample): the output of a
run need not be match-free when transposes are chained. -/
theorem C1_fixed_point_when_no_match (eps : List String) (g : Graph)
    (h : ∀ n ∈ g.nodes, NoMatchAt eps g n) :
    ApplyImpl eps g = .ok (g, false) := by
  unfold ApplyImpl
  have hfix : applyLoop eps ⟨g, [], [], false⟩ (g.nodes.map (fun n => n.idx)) =
      .ok ⟨g, [], [], false⟩ := by
    apply applyLoop_fixed
    intro i hi
    apply processNode_noMatch
    · exact h
    · simp only [List.mem_map] at hi
      obtain ⟨n, hmem, hidx⟩ := hi
      exact ⟨n, hmem, hidx⟩
  rw [hfix]
  rfl

/-- A match-free one-node graph for the C1 witness. -/
def c1_w : Node := ⟨0, "R", "Relu", "", 13, ["x"], ["y"], [], ""⟩

/-- Graph around `c1_w`. -/
def c1_wg : Graph := ⟨[c1_w], [], ["x"], ["y"], 1, 0⟩

/-- Witness for the amended C1 theorem on a concrete match-free graph. -/
theorem C1_fixed_point_when_no_match_witness :
    ApplyImpl [] c1_wg = .ok (c1_wg, false) :=
  C1_fixed_point_when_no_match [] c1_wg (by
    intro n hn ht
    exfalso
    have : n = c1_w := by
      simpa [c1_wg] using hn
    subst this
    exact absurd ht (by decide))

/-! ## Gradient graph builder (module_gradient_graph_builder.cc) -/

/-- Modelled from the spec: the deterministic gradient naming convention
(`GradientBuilderBase::GradientName` is outside the provided sources). -/
def GradientName (s : String) : String := s ++ "_grad"

/-- Modelled from the spec: the deterministic external-seed variant of a
gradient name (`GradientBuilderBase::ExternalOutputName` is outside the
provided sources). -/
def ExternalOutputName (s : String) : String := s ++ "_external"

/-- The builder's bookkeeping (`TrainingGraphInfo`): user input/output
names, trainable-parameter names in declared order, and the output lists
the builder fills in. -/
structure TrainingGraphInfo where
  userInputNames : List String
  userOutputNames : List String
  initializerNamesToTrain : List String
  userInputGradNames : List (String × String)
  initializerGradNamesToTrain : List String
  outputGradIndicesRequireFullShape : List Nat
  deriving DecidableEq

/-- The first loop of `ReorderOutputs` (lines 255–263): walk the user inputs
in order, and for each input requiring grad look its gradient up among the
current graph outputs, failing hard when absent. -/
def reorderInputGradLoop (outNames : List String) (requireGrad : List String) :
    List String → Except String (List (String × String) × List String)
  | [] => .ok ([], [])
  | n :: rest =>
    if n ∈ requireGrad then
      if GradientName n ∈ outNames then
        match reorderInputGradLoop outNames requireGrad rest with
        | .ok (m, outs) => .ok ((n, GradientName n) :: m, GradientName n :: outs)
        | .error e => .error e
      else .error "Required user input grad is not found on gradient graph."
    else reorderInputGradLoop outNames requireGrad rest

/-- The second loop of `ReorderOutputs` (lines 266–273): walk the trainable
parameters in declared order, failing hard when a gradient is absent. -/
def reorderParamGradLoop (outNames : List String) :
    List String → Except String (List String × List String)
  | [] => .ok ([], [])
  | p :: rest =>
    if GradientName p ∈ outNames then
      match reorderParamGradLoop outNames rest with
      | .ok (ns, outs) => .ok (GradientName p :: ns, GradientName p :: outs)
      | .error e => .error e
    else .error "Trainable initializer grad is not found on gradient graph."

/-- `ModuleGradientGraphBuilder::ReorderOutputs`: fix the gradient graph's
outputs as input gradients (user-input order) followed by trainable
parameter gradients (declared order). -/
def ReorderOutputs (g : Graph) (info : TrainingGraphInfo)
    (inputNamesRequireGrad : List String) : Except String (Graph × TrainingGraphInfo) :=
  match reorderInputGradLoop g.graphOutputs inputNamesRequireGrad info.userInputNames with
  | .error e => .error e
  | .ok (gradMap, outs1) =>
    match reorderParamGradLoop g.graphOutputs info.initializerNamesToTrain with
    | .error e => .error e
    | .ok (gradNames, outs2) =>
      .ok ({ g with graphOutputs := outs1 ++ outs2 },
           { info with
               userInputGradNames := gradMap,
               initializerGradNamesToTrain := gradNames })

/-- The shape-overwriting loop of `SetConcreteInputShapes` (lines 104–115):
look each user input up (a missing arg is the modelled null dereference) and
overwrite its declared shape with the concrete one. -/
def setShapesLoop (g : Graph) : List String → List (List Int) → Except String Graph
  | [], _ => .ok g
  | n :: ns, dims :: rest =>
    if (g.getNodeArg n).isSome then
      setShapesLoop
        { g with nodeArgs := g.nodeArgs.map (fun a =>
            if a.name = n then { a with shape := some dims } else a) } ns rest
    else .error "GetNodeArg returned nullptr"
  | _ :: _, [] => .error "input_shapes exhausted"

/-- `ModuleGradientGraphBuilder::SetConcreteInputShapes`: enforce equal
lengths first, overwrite every user input's declared shape, and carry the
remaining (trainable-parameter) graph inputs over unchanged. -/
def SetConcreteInputShapes (g : Graph) (userInputNames : List String)
    (inputShapes : List (List Int)) : Except String Graph :=
  if inputShapes.length ≠ userInputNames.length then
    .error "The size of concrete input shapes and the size of user inputs does not match."
  else
    match setShapesLoop g userInputNames inputShapes with
    | .error e => .error e
    | .ok g' =>
      .ok { g' with
              graphInputs := userInputNames ++ g.graphInputs.drop userInputNames.length }

/-- The scan of `HandleOutputsAndGrads` (lines 183–191): gradient names of
declared outputs that are produced by some node of the backward graph, in
first-seen order (the source collects them in an unordered set). -/
def internalOutputGradNames (g : Graph) (gradNameSet : List String) : List String :=
  g.nodes.foldl (fun acc n =>
    n.outputs.foldl (fun acc2 o =>
      if o ∈ gradNameSet ∧ o ∉ acc2 then acc2 ++ [o] else acc2) acc) []

/-- `graph_utils::ReplaceDownstreamNodeInput`: redirect every edge-bearing
consumer of `oldName` to `newName`.  The freshly added Add node (index
`excludeIdx`) has no edges yet and is not redirected. -/
def ReplaceDownstreamNodeInput (g : Graph) (excludeIdx : Nat) (oldName newName : String) :
    Graph :=
  { g with nodes := g.nodes.map (fun n =>
      if n.idx = excludeIdx then n
      else { n with inputs := n.inputs.map (fun v => if v = oldName then newName else v) }) }

/-- One iteration of the reconciliation loop of `HandleOutputsAndGrads`
(lines 193–205): create the external-seed arg and the add-output arg, insert
the elementwise Add summing external seed and internal contribution, and
redirect all downstream consumers of the internal value to the Add's
result. -/
def addGradAccumulation (g : Graph) (gradName : String) : Except String Graph :=
  match g.getProducerNode gradName with
  | none => .error "GetMutableProducerNode returned nullptr"
  | some _ =>
    let tI := g.getNodeArg gradName
    let shape := tI.bind (fun a => a.shape)
    let elemT := tI.bind (fun a => a.elemType)
    let p1 := g.generateNodeArgName (ExternalOutputName gradName)
    let p2 := p1.2.getOrCreateNodeArg p1.1 shape elemT
    let p3 := p2.2.generateNodeArgName (gradName ++ "_add_output")
    let p4 := p3.2.getOrCreateNodeArg p3.1 shape elemT
    let p5 := p4.2.addNode (gradName ++ "_add") "Add" "" 0 [p2.1.name, gradName] [p4.1.name] [] ""
    .ok (ReplaceDownstreamNodeInput p5.2 p5.1.idx gradName p4.1.name)

/-- The reconciliation loop over all internally produced output-gradient
names. -/
def accumLoop : Graph → List String → Except String Graph
  | g, [] => .ok g
  | g, n :: rest =>
    match addGradAccumulation g n with
    | .error e => .error e
    | .ok g' => accumLoop g' rest

/-- The YieldOp input/output/full-shape-index computation of
`HandleOutputsAndGrads` (lines 214–232), indexed from `i`. -/
def yieldLists (internals : List String) : Nat → List String →
    List String × List String × List Nat
  | _, [] => ([], [], [])
  | i, name :: rest =>
    let t := yieldLists internals (i + 1) rest
    if GradientName name ∈ internals then
      (name :: t.1, ExternalOutputName (GradientName name) :: t.2.1, t.2.2)
    else
      (name :: t.1, GradientName name :: t.2.1, i :: t.2.2)

/-- `ModuleGradientGraphBuilder::HandleOutputsAndGrads`: reconcile every
internally produced output gradient with its external seed through an Add
node, then append the terminal YieldOp consuming all declared outputs and
producing the (possibly reconciled) seed gradients, annotated with the
indices of outputs requiring a full-shape seed. -/
def HandleOutputsAndGrads (g : Graph) (info : TrainingGraphInfo) :
    Except String (Graph × TrainingGraphInfo) :=
  let internals := internalOutputGradNames g (info.userOutputNames.map GradientName)
  match accumLoop g internals with
  | .error e => .error e
  | .ok g1 =>
    let yl := yieldLists internals 0 info.userOutputNames
    let p := g1.addNode "YieldOp" "YieldOp" kMSDomain 1 yl.1 yl.2.1
      [("full_shape_outputs", .ints (yl.2.2.map Int.ofNat))] ""
    .ok (p.2, { info with outputGradIndicesRequireFullShape := yl.2.2 })

/-! ## C8 and C2: backward-graph output ordering and missing gradients -/

lemma reorderInputGradLoop_ok (outNames requireGrad : List String) (names : List String)
    (h : ∀ n ∈ names, n ∈ requireGrad → GradientName n ∈ outNames) :
    reorderInputGradLoop outNames requireGrad names =
      .ok ((names.filter (fun n => n ∈ requireGrad)).map (fun n => (n, GradientName n)),
           (names.filter (fun n => n ∈ requireGrad)).map GradientName) := by
  induction names with
  | nil => rfl
  | cons n rest ih =>
    unfold reorderInputGradLoop
    by_cases hn : n ∈ requireGrad
    · rw [if_pos hn, if_pos (h n (List.mem_cons_self n rest) hn),
        ih (fun m hm hg => h m (List.mem_cons_of_mem n hm) hg)]
      simp [List.filter_cons, hn]
    · rw [if_neg hn, ih (fun m hm hg => h m (List.mem_cons_of_mem n hm) hg)]
      simp [List.filter_cons, hn]

lemma reorderParamGradLoop_ok (outNames : List String) (params : List String)
    (h : ∀ p ∈ params, GradientName p ∈ outNames) :
    reorderParamGradLoop outNames params =
      .ok (params.map GradientName, params.map GradientName) := by
  induction params with
  | nil => rfl
  | cons p rest ih =>
    unfold reorderParamGradLoop
    rw [if_pos (h p (List.mem_cons_self p rest)),
      ih (fun q hq => h q (List.mem_cons_of_mem p hq))]
    rfl

/-- Concrete builder info with trainable parameters P1, P2 and inputs I1
(requiring grad), I2. -/
def c8_info : TrainingGraphInfo := ⟨["I1", "I2"], [], ["P1", "P2"], [], [], []⟩

/-- Concrete gradient graph whose outputs appear in scrambled creation
order. -/
def c8_g : Graph := ⟨[], [], [], ["P2_grad", "I1_grad", "P1_grad"], 0, 0⟩

/-- Expected reordered outputs: grad(I1), grad(P1), grad(P2). -/
def c8_gAfter : Graph := ⟨[], [], [], ["I1_grad", "P1_grad", "P2_grad"], 0, 0⟩

/-- Expected info after reordering. -/
def c8_infoAfter : TrainingGraphInfo :=
  ⟨["I1", "I2"], [], ["P1", "P2"], [("I1", "I1_grad")], ["P1_grad", "P2_grad"], []⟩

/-- C8: after `ReorderOutputs` the gradient graph's outputs are exactly the
gradients of the user inputs requiring grad, in user-input order, followed
by the gradients of the trainable parameters in declared order — regardless
of the previous output order; e.g. P1, P2 and grad-input I1 yield
[grad(I1), grad(P1), grad(P2)]. -/
theorem C8_backward_output_order :
    (∀ (g : Graph) (info : TrainingGraphInfo) (rg : List String),
      (∀ n ∈ info.userInputNames, n ∈ rg → GradientName n ∈ g.graphOutputs) →
      (∀ p ∈ info.initializerNamesToTrain, GradientName p ∈ g.graphOutputs) →
      ReorderOutputs g info rg =
        .ok ({ g with graphOutputs :=
                 (info.userInputNames.filter (fun n => n ∈ rg)).map GradientName ++
                 info.initializerNamesToTrain.map GradientName },
             { info with
                 userInputGradNames :=
                   (info.userInputNames.filter (fun n => n ∈ rg)).map
                     (fun n => (n, GradientName n)),
                 initializerGradNamesToTrain :=
                   info.initializerNamesToTrain.map GradientName })) ∧
    ReorderOutputs c8_g c8_info ["I1"] = .ok (c8_gAfter, c8_infoAfter) := by
  constructor
  · intro g info rg h1 h2
    unfold ReorderOutputs
    rw [reorderInputGradLoop_ok g.graphOutputs rg info.userInputNames h1,
      reorderParamGradLoop_ok g.graphOutputs info.initializerNamesToTrain h2]
  · decide

/-- Witness for C8 at the concrete P1/P2/I1 instance. -/
theorem C8_backward_output_order_witness :
    ReorderOutputs c8_g c8_info ["I1"] =
      .ok ({ c8_g with graphOutputs :=
               (c8_info.userInputNames.filter (fun n => n ∈ ["I1"])).map GradientName ++
               c8_info.initializerNamesToTrain.map GradientName },
           { c8_info with
               userInputGradNames :=
                 (c8_info.userInputNames.filter (fun n => n ∈ ["I1"])).map
                   (fun n => (n, GradientName n)),
               initializerGradNamesToTrain :=
                 c8_info.initializerNamesToTrain.map GradientName }) :=
  C8_backward_output_order.1 c8_g c8_info ["I1"] (by decide) (by decide)

lemma reorderInputGradLoop_error (outNames requireGrad : List String) (names : List String)
    (h : ∃ n ∈ names, n ∈ requireGrad ∧ GradientName n ∉ outNames) :
    ∃ e, reorderInputGradLoop outNames requireGrad names = .error e := by
  induction names with
  | nil => simp at h
  | cons n rest ih =>
    unfold reorderInputGradLoop
    rcases h with ⟨m, hm, hrg, hout⟩
    rcases List.mem_cons.mp hm with rfl | hmem
    · rw [if_pos hrg, if_neg hout]
      exact ⟨_, rfl⟩
    · by_cases hn : n ∈ requireGrad
      · rw [if_pos hn]
        by_cases hg : GradientName n ∈ outNames
        · rw [if_pos hg]
          obtain ⟨e, he⟩ := ih ⟨m, hmem, hrg, hout⟩
          rw [he]
          exact ⟨e, rfl⟩
        · rw [if_neg hg]
          exact ⟨_, rfl⟩
      · rw [if_neg hn]
        exact ih ⟨m, hmem, hrg, hout⟩

lemma reorderParamGradLoop_error (outNames : List String) (params : List String)
    (h : ∃ p ∈ params, GradientName p ∉ outNames) :
    ∃ e, reorderParamGradLoop outNames params = .error e := by
  induction params with
  | nil => simp at h
  | cons p rest ih =>
    unfold reorderParamGradLoop
    rcases h with ⟨q, hq, hout⟩
    rcases List.mem_cons.mp hq with rfl | hmem
    · rw [if_neg hout]
      exact ⟨_, rfl⟩
    · by_cases hg : GradientName p ∈ outNames
      · rw [if_pos hg]
        obtain ⟨e, he⟩ := ih ⟨q, hmem, hout⟩
        rw [he]
        exact ⟨e, rfl⟩
      · rw [if_neg hg]
        exact ⟨_, rfl⟩

/-- Builder info for the C2 counterexample: one user input `x`, no
trainable parameters. -/
def c2_info : TrainingGraphInfo := ⟨["x"], [], [], [], [], []⟩

/-- Gradient graph for the C2 counterexample: no gradient outputs at all. -/
def c2_g : Graph := ⟨[], [], [], ["out"], 0, 0⟩

/-- Counterexample to C2 as stated: the name `z` is requested in the
inputs-requiring-grad list and has no gradient output, yet the build
succeeds and `z`'s gradient is silently absent from the outputs. -/
theorem C2_counterexample_non_input_requested :
    GradientName "z" ∉ c2_g.graphOutputs ∧
    ReorderOutputs c2_g c2_info ["z"] =
      .ok (⟨[], [], [], [], 0, 0⟩, ⟨["x"], [], [], [], [], []⟩) ∧
    GradientName "z" ∉ (⟨[], [], [], [], 0, 0⟩ : Graph).graphOutputs := by
  refine ⟨by decide, by decide, by decide⟩

/-- C2 (amended): if any trainable-parameter name, or any name that is both
a user input and in the inputs-requiring-grad list, has no corresponding
gradient output at output-reordering time, the whole build fails fatally.
A requested name that is not among the user inputs is skipped, and its
absent gradient is silently omitted (see the counterexample). -/
theorem C2_missing_gradient_fails (g : Graph) (info : TrainingGraphInfo)
    (rg : List String)
    (h : (∃ n ∈ info.userInputNames, n ∈ rg ∧ GradientName n ∉ g.graphOutputs) ∨
         (∃ p ∈ info.initializerNamesToTrain, GradientName p ∉ g.graphOutputs)) :
    ∃ e, ReorderOutputs g info rg = .error e := by
  unfold ReorderOutputs
  rcases h with h | h
  · obtain ⟨e, he⟩ := reorderInputGradLoop_error g.graphOutputs rg info.userInputNames h
    rw [he]
    exact ⟨e, rfl⟩
  · cases hl : reorderInputGradLoop g.graphOutputs rg info.userInputNames with
    | error e => exact ⟨e, rfl⟩
    | ok pr =>
      obtain ⟨pm, pouts⟩ := pr
      dsimp only
      obtain ⟨e, he⟩ := reorderParamGradLoop_error g.graphOutputs info.initializerNamesToTrain h
      rw [he]
      exact ⟨e, rfl⟩

/-- Builder info for the C2 witness: input `x` requires grad but has no
gradient output. -/
def c2w_info : TrainingGraphInfo := ⟨["x"], [], [], [], [], []⟩

/-- Witness for the amended C2: a missing user-input gradient fails the
build. -/
theorem C2_missing_gradient_fails_witness :
    ∃ e, ReorderOutputs c2_g c2w_info ["x"] = .error e :=
  C2_missing_gradient_fails c2_g c2w_info ["x"]
    (Or.inl ⟨"x", by decide, by decide, by decide⟩)

/-! ## C10: shape-specialization precondition -/

lemma find?_name_map (l : List NodeArg) (f : NodeArg → NodeArg)
    (hf : ∀ a, (f a).name = a.name) (v : String) :
    (l.map f).find? (fun a => a.name = v) = (l.find? (fun a => a.name = v)).map f := by
  induction l with
  | nil => rfl
  | cons a t ih =>
    by_cases hv : a.name = v
    · rw [List.map_cons, List.find?_cons_of_pos _ (by simp [hf a, hv]),
        List.find?_cons_of_pos _ (by simp [hv])]
      rfl
    · rw [List.map_cons, List.find?_cons_of_neg _ (by simp [hf a, hv]),
        List.find?_cons_of_neg _ (by simp [hv])]
      exact ih

lemma getNodeArg_mapShape (g : Graph) (n : String) (dims : List Int) (v : String) :
    ({ g with nodeArgs := g.nodeArgs.map (fun a =>
        if a.name = n then { a with shape := some dims } else a) } : Graph).getNodeArg v =
      (g.getNodeArg v).map (fun a =>
        if a.name = n then { a with shape := some dims } else a) := by
  unfold Graph.getNodeArg
  exact find?_name_map g.nodeArgs _ (fun a => by by_cases h : a.name = n <;> simp [h]) v

lemma setShapesLoop_spec (names : List String) :
    ∀ (shapes : List (List Int)) (g : Graph),
      shapes.length = names.length → names.Nodup →
      (∀ n ∈ names, (g.getNodeArg n).isSome) →
      ∃ g', setShapesLoop g names shapes = .ok g' ∧
        g'.graphInputs = g.graphInputs ∧
        g'.nodes = g.nodes ∧
        (∀ v, v ∉ names → g'.getNodeArg v = g.getNodeArg v) ∧
        (∀ i, i < names.length →
          ∃ a, g'.getNodeArg (names.getD i "") = some a ∧
            a.shape = some (shapes.getD i [])) := by
  induction names with
  | nil =>
    intro shapes g hlen hnd hargs
    exact ⟨g, rfl, rfl, rfl, fun v _ => rfl, fun i hi => absurd hi (by simp)⟩
  | cons n ns ih =>
    intro shapes g hlen hnd hargs
    cases shapes with
    | nil => simp at hlen
    | cons dims rest =>
      have hlen' : rest.length = ns.length := by simpa using hlen
      have hnd' : ns.Nodup := (List.nodup_cons.mp hnd).2
      have hnn : n ∉ ns := (List.nodup_cons.mp hnd).1
      set g1 : Graph := { g with nodeArgs := g.nodeArgs.map (fun a =>
        if a.name = n then { a with shape := some dims } else a) } with hg1
      have hmap : ∀ v, g1.getNodeArg v =
          (g.getNodeArg v).map (fun a =>
            if a.name = n then { a with shape := some dims } else a) :=
        fun v => getNodeArg_mapShape g n dims v
      have hargs1 : ∀ m ∈ ns, (g1.getNodeArg m).isSome = true := by
        intro m hm
        rw [hmap m]
        have hsome := hargs m (List.mem_cons_of_mem n hm)
        cases hx : g.getNodeArg m with
        | none => rw [hx] at hsome; simp at hsome
        | some a => simp
      obtain ⟨g', hrun, hin, hnodes, hpres, hshapes⟩ := ih rest g1 hlen' hnd' hargs1
      refine ⟨g', ?_, ?_, ?_, ?_, ?_⟩
      · unfold setShapesLoop
        rw [if_pos (hargs n (List.mem_cons_self n ns))]
        exact hrun
      · rw [hin]
      · rw [hnodes]
      · intro v hv
        have hvn : v ≠ n := fun h => hv (h ▸ List.mem_cons_self n ns)
        have hvns : v ∉ ns := fun h => hv (List.mem_cons_of_mem n h)
        rw [hpres v hvns, hmap v]
        cases hx : g.getNodeArg v with
        | none => rfl
        | some a =>
          have hname : a.name = v := by simpa using List.find?_some hx
          simp [hname, hvn]
      · intro i hi
        cases i with
        | zero =>
          have hsome := hargs n (List.mem_cons_self n ns)
          cases hx : g.getNodeArg n with
          | none => rw [hx] at hsome; simp at hsome
          | some a0 =>
            have hname : a0.name = n := by simpa using List.find?_some hx
            refine ⟨{ a0 with shape := some dims }, ?_, rfl⟩
            show g'.getNodeArg n = _
            rw [hpres n hnn, hmap n, hx]
            simp [hname]
        | succ j =>
          have hj : j < ns.length := by simpa using hi
          exact hshapes j hj

/-- C10: the concrete-shape list must have exactly one entry per user
input; a mismatch fails fatally before any shape is written, and under the
equal-length precondition every user input's declared shape is overwritten
with the given concrete shape while all other args — in particular the
trainable-parameter inputs, which are carried over behind the user inputs —
are unchanged. -/
theorem C10_concrete_shape_precondition :
    (∀ (g : Graph) (names : List String) (shapes : List (List Int)),
      shapes.length ≠ names.length →
      SetConcreteInputShapes g names shapes =
        .error "The size of concrete input shapes and the size of user inputs does not match.") ∧
    (∀ (g : Graph) (names : List String) (shapes : List (List Int)),
      shapes.length = names.length → names.Nodup →
      (∀ n ∈ names, (g.getNodeArg n).isSome) →
      ∃ g', SetConcreteInputShapes g names shapes = .ok g' ∧
        g'.graphInputs = names ++ g.graphInputs.drop names.length ∧
        (∀ i, i < names.length →
          ∃ a, g'.getNodeArg (names.getD i "") = some a ∧
            a.shape = some (shapes.getD i [])) ∧
        (∀ v, v ∉ names → g'.getNodeArg v = g.getNodeArg v)) := by
  constructor
  · intro g names shapes hne
    unfold SetConcreteInputShapes
    rw [if_pos hne]
  · intro g names shapes hlen hnd hargs
    obtain ⟨g', hrun, hin, hnodes, hpres, hshapes⟩ := setShapesLoop_spec names shapes g hlen hnd hargs
    refine ⟨{ g' with graphInputs := names ++ g.graphInputs.drop names.length }, ?_, rfl, ?_, ?_⟩
    · unfold SetConcreteInputShapes
      rw [if_neg (by omega), hrun]
    · intro i hi
      exact hshapes i hi
    · intro v hv
      exact hpres v hv

/-- Concrete graph for the C10 witness: user input `x` and trainable
parameter `p`. -/
def c10_g : Graph :=
  ⟨[], [⟨"x", some [1], some 1⟩, ⟨"p", some [5], some 1⟩], ["x", "p"], [], 0, 0⟩

/-- Witness for C10: overwriting the single user input's shape succeeds and
carries the parameter input over. -/
theorem C10_concrete_shape_precondition_witness :
    ∃ g', SetConcreteInputShapes c10_g ["x"] [[7, 8]] = .ok g' ∧
      g'.graphInputs = ["x"] ++ c10_g.graphInputs.drop (["x"] : List String).length ∧
      (∀ i, i < (["x"] : List String).length →
        ∃ a, g'.getNodeArg ((["x"] : List String).getD i "") = some a ∧
          a.shape = some (([[7, 8]] : List (List Int)).getD i [])) ∧
      (∀ v, v ∉ (["x"] : List String) → g'.getNodeArg v = c10_g.getNodeArg v) :=
  C10_concrete_shape_precondition.2 c10_g ["x"] [[7, 8]] (by decide) (by decide) (by decide)

/-! ## C9: output-gradient reconciliation -/

lemma string_append_right_cancel {a b s : String} (h : a ++ s = b ++ s) : a = b := by
  have hd : a.data ++ s.data = b.data ++ s.data := by
    have h2 := congrArg String.data h
    simpa [String.data_append] using h2
  exact String.ext (List.append_cancel_right hd)

lemma generateNodeArgName_of_fresh (g : Graph) (b : String) (h : g.getNodeArg b = none) :
    g.generateNodeArgName b = (b, g) := by
  have hno : ¬ (g.nodeArgs.any (fun a => a.name = b)) = true := by
    rw [List.any_eq_true]
    rintro ⟨a, ha, hab⟩
    unfold Graph.getNodeArg at h
    exact (List.find?_eq_none.mp h a ha) hab
  unfold Graph.generateNodeArgName
  rw [if_neg hno]

lemma getOrCreateNodeArg_of_fresh (g : Graph) (v : String) (S : Option (List Int))
    (E : Option Int) (h : g.getNodeArg v = none) :
    g.getOrCreateNodeArg v S E =
      (⟨v, S, E⟩, { g with nodeArgs := g.nodeArgs ++ [⟨v, S, E⟩] }) := by
  unfold Graph.getOrCreateNodeArg
  rw [h]

/-- One redirection step of the reconciliation applied to a consumer node. -/
def substOne (a : String) (n : Node) : Node :=
  { n with inputs := n.inputs.map (fun v => if v = a then a ++ "_add_output" else v) }

/-- Cumulative redirection applied to an input name by the whole
reconciliation loop. -/
def substGrad (internals : List String) (v : String) : String :=
  if v ∈ internals then v ++ "_add_output" else v

lemma addGradAccumulation_spec (g : Graph) (a : String)
    (hprod : ∃ p ∈ g.nodes, a ∈ p.outputs)
    (hfe : g.getNodeArg (ExternalOutputName a) = none)
    (hfa : g.getNodeArg (a ++ "_add_output") = none)
    (hne : ExternalOutputName a ≠ a ++ "_add_output")
    (hWF : ∀ n ∈ g.nodes, n.idx < g.nextNodeIdx) :
    addGradAccumulation g a = .ok
      { nodes := g.nodes.map (substOne a) ++
          [⟨g.nextNodeIdx, a ++ "_add", "Add", "", 0,
            [ExternalOutputName a, a], [a ++ "_add_output"], [], ""⟩],
        nodeArgs := g.nodeArgs ++
          [⟨ExternalOutputName a, (g.getNodeArg a).bind NodeArg.shape,
            (g.getNodeArg a).bind NodeArg.elemType⟩,
           ⟨a ++ "_add_output", (g.getNodeArg a).bind NodeArg.shape,
            (g.getNodeArg a).bind NodeArg.elemType⟩],
        graphInputs := g.graphInputs, graphOutputs := g.graphOutputs,
        nextNodeIdx := g.nextNodeIdx + 1, nameGen := g.nameGen } := by
  obtain ⟨p, hp, hap⟩ := hprod
  have hps : ∃ q, g.getProducerNode a = some q := by
    have : (g.getProducerNode a).isSome = true := by
      unfold Graph.getProducerNode
      rw [List.find?_isSome]
      exact ⟨p, hp, by simpa using hap⟩
    cases hx : g.getProducerNode a with
    | none => rw [hx] at this; simp at this
    | some q => exact ⟨q, rfl⟩
  obtain ⟨q, hq⟩ := hps
  unfold addGradAccumulation
  rw [hq]
  dsimp only
  rw [generateNodeArgName_of_fresh g _ hfe]
  dsimp only
  rw [getOrCreateNodeArg_of_fresh g _ _ _ hfe]
  dsimp only
  have hfa2 : ({ g with nodeArgs := g.nodeArgs ++
      [(⟨ExternalOutputName a, (g.getNodeArg a).bind NodeArg.shape,
        (g.getNodeArg a).bind NodeArg.elemType⟩ : NodeArg)] } : Graph).getNodeArg
        (a ++ "_add_output") = none := by
    unfold Graph.getNodeArg at hfa ⊢
    rw [List.find?_append, hfa]
    simp [hne]
  rw [generateNodeArgName_of_fresh _ _ hfa2]
  dsimp only
  rw [getOrCreateNodeArg_of_fresh _ _ _ _ hfa2]
  dsimp only
  unfold Graph.addNode ReplaceDownstreamNodeInput
  dsimp only
  rw [List.map_append]
  have hmapped : List.map (fun n =>
      if n.idx = g.nextNodeIdx then n
      else { n with inputs := n.inputs.map (fun v =>
        if v = a then a ++ "_add_output" else v) }) g.nodes =
      g.nodes.map (substOne a) := by
    apply List.map_congr_left
    intro n hn
    rw [if_neg (by have := hWF n hn; omega)]
    rfl
  rw [hmapped]
  simp [List.append_assoc]

lemma accumLoop_spec (internals : List String) :
    ∀ g : Graph,
      internals.Nodup →
      (∀ a ∈ internals, ∃ p ∈ g.nodes, a ∈ p.outputs) →
      (∀ a ∈ internals, g.getNodeArg (ExternalOutputName a) = none) →
      (∀ a ∈ internals, g.getNodeArg (a ++ "_add_output") = none) →
      (∀ a ∈ internals, ∀ b ∈ internals, ExternalOutputName a ≠ b ++ "_add_output") →
      (∀ a ∈ internals, ∀ b ∈ internals, a ≠ b ++ "_add_output") →
      (∀ a ∈ internals, ∀ b ∈ internals, a ≠ ExternalOutputName b) →
      (∀ n ∈ g.nodes, n.idx < g.nextNodeIdx) →
      ∃ g', accumLoop g internals = .ok g' ∧
        (∀ a ∈ internals, ∃ k, (⟨k, a ++ "_add", "Add", "", 0,
            [ExternalOutputName a, a], [a ++ "_add_output"], [], ""⟩ : Node) ∈ g'.nodes) ∧
        (∀ n ∈ g.nodes,
          { n with inputs := n.inputs.map (substGrad internals) } ∈ g'.nodes) ∧
        (∃ tail, g'.nodeArgs = g.nodeArgs ++ tail ∧
          ∀ a ∈ internals, ∃ arg ∈ tail, arg.name = ExternalOutputName a) ∧
        g'.graphInputs = g.graphInputs ∧ g'.graphOutputs = g.graphOutputs := by
  induction internals with
  | nil =>
    intro g _ _ _ _ _ _ _ _
    refine ⟨g, rfl, by simp, ?_, ⟨[], by simp, by simp⟩, rfl, rfl⟩
    intro n hn
    have hid : n.inputs.map (substGrad []) = n.inputs := by
      have h1 : n.inputs.map (substGrad []) = n.inputs.map (fun v => v) :=
        List.map_congr_left (fun v _ => by simp [substGrad])
      rw [h1]
      simp
    rw [hid]
    exact hn
  | cons a rest ih =>
    intro g hnd hprod hfe hfa h5 h6 h7 hWF
    have hndr : rest.Nodup := (List.nodup_cons.mp hnd).2
    have hanr : a ∉ rest := (List.nodup_cons.mp hnd).1
    have hmem : ∀ x ∈ rest, x ∈ a :: rest := fun x hx => List.mem_cons_of_mem a hx
    have hamem : a ∈ a :: rest := List.mem_cons_self a rest
    set S : Option (List Int) := (g.getNodeArg a).bind NodeArg.shape with hS
    set E : Option Int := (g.getNodeArg a).bind NodeArg.elemType with hE
    set addN : Node := ⟨g.nextNodeIdx, a ++ "_add", "Add", "", 0,
      [ExternalOutputName a, a], [a ++ "_add_output"], [], ""⟩ with haddN
    set g1 : Graph :=
      { nodes := g.nodes.map (substOne a) ++ [addN],
        nodeArgs := g.nodeArgs ++ [⟨ExternalOutputName a, S, E⟩, ⟨a ++ "_add_output", S, E⟩],
        graphInputs := g.graphInputs,
        graphOutputs := g.graphOutputs,
        nextNodeIdx := g.nextNodeIdx + 1,
        nameGen := g.nameGen } with hg1
    have hstep : addGradAccumulation g a = .ok g1 :=
      addGradAccumulation_spec g a (hprod a hamem) (hfe a hamem) (hfa a hamem)
        (h5 a hamem a hamem) hWF
    have hprod1 : ∀ b ∈ rest, ∃ p ∈ g1.nodes, b ∈ p.outputs := by
      intro b hb
      obtain ⟨p, hp, hbp⟩ := hprod b (hmem b hb)
      refine ⟨substOne a p, ?_, hbp⟩
      exact List.mem_append_left _ (List.mem_map_of_mem _ hp)
    have hfe1 : ∀ b ∈ rest, g1.getNodeArg (ExternalOutputName b) = none := by
      intro b hb
      show (g.nodeArgs ++ [(⟨ExternalOutputName a, S, E⟩ : NodeArg), ⟨a ++ "_add_output", S, E⟩]).find? (fun x => x.name = ExternalOutputName b) = none
      rw [List.find?_append]
      have h0 : g.nodeArgs.find? (fun x => x.name = ExternalOutputName b) = none :=
        hfe b (hmem b hb)
      have hne1 : ExternalOutputName a ≠ ExternalOutputName b := by
        intro hc
        exact hanr ((string_append_right_cancel hc) ▸ hb)
      have hne2 : a ++ "_add_output" ≠ ExternalOutputName b :=
        (h5 b (hmem b hb) a hamem).symm
      rw [h0]
      simp [hne1, hne2]
    have hfa1 : ∀ b ∈ rest, g1.getNodeArg (b ++ "_add_output") = none := by
      intro b hb
      show (g.nodeArgs ++ [(⟨ExternalOutputName a, S, E⟩ : NodeArg), ⟨a ++ "_add_output", S, E⟩]).find? (fun x => x.name = b ++ "_add_output") = none
      rw [List.find?_append]
      have h0 : g.nodeArgs.find? (fun x => x.name = b ++ "_add_output") = none :=
        hfa b (hmem b hb)
      have hne1 : ExternalOutputName a ≠ b ++ "_add_output" :=
        h5 a hamem b (hmem b hb)
      have hne2 : a ++ "_add_output" ≠ b ++ "_add_output" := by
        intro hc
        exact hanr ((string_append_right_cancel hc) ▸ hb)
      rw [h0]
      simp [hne1, hne2]
    have hWF1 : ∀ n ∈ g1.nodes, n.idx < g1.nextNodeIdx := by
      intro n hn
      show n.idx < g.nextNodeIdx + 1
      rcases List.mem_append.mp hn with hn | hn
      · obtain ⟨m, hm, rfl⟩ := List.mem_map.mp hn
        have := hWF m hm
        show m.idx < g.nextNodeIdx + 1
        omega
      · have : n = addN := by simpa using hn
        subst this
        show g.nextNodeIdx < g.nextNodeIdx + 1
        omega
    obtain ⟨g', hrun, hAdds, hPres, ⟨tail, htail, hext⟩, hin, hout⟩ :=
      ih g1 hndr hprod1 hfe1 hfa1
        (fun x hx y hy => h5 x (hmem x hx) y (hmem y hy))
        (fun x hx y hy => h6 x (hmem x hx) y (hmem y hy))
        (fun x hx y hy => h7 x (hmem x hx) y (hmem y hy))
        hWF1
    have hExtANotInRest : ExternalOutputName a ∉ rest := by
      intro hc
      exact h7 (ExternalOutputName a) (hmem _ hc) a hamem rfl
    have hAddOutNotInRest : a ++ "_add_output" ∉ rest := by
      intro hc
      exact h6 (a ++ "_add_output") (hmem _ hc) a hamem rfl
    have hfun : ∀ v, substGrad rest (if v = a then a ++ "_add_output" else v) =
        substGrad (a :: rest) v := by
      intro v
      by_cases hv : v = a
      · subst hv
        simp [substGrad, hAddOutNotInRest]
      · simp [substGrad, hv, List.mem_cons]
    refine ⟨g', ?_, ?_, ?_, ?_, ?_, ?_⟩
    · unfold accumLoop
      rw [hstep]
      exact hrun
    · intro x hx
      rcases List.mem_cons.mp hx with rfl | hxr
      · refine ⟨g.nextNodeIdx, ?_⟩
        have hmemN : addN ∈ g1.nodes := List.mem_append_right _ (List.mem_singleton_self _)
        have hthis := hPres addN hmemN
        have hinp : addN.inputs.map (substGrad rest) = [ExternalOutputName x, x] := by
          show [ExternalOutputName x, x].map (substGrad rest) = _
          simp [substGrad, hExtANotInRest, hanr]
        rw [hinp] at hthis
        exact hthis
      · exact hAdds x hxr
    · intro n hn
      have hmemN : substOne a n ∈ g1.nodes :=
        List.mem_append_left _ (List.mem_map_of_mem _ hn)
      have hthis := hPres (substOne a n) hmemN
      have hinputs : (substOne a n).inputs.map (substGrad rest) =
          n.inputs.map (substGrad (a :: rest)) := by
        have h1 : (substOne a n).inputs.map (substGrad rest) =
            (n.inputs.map (fun v => if v = a then a ++ "_add_output" else v)).map
              (substGrad rest) := rfl
        rw [h1, List.map_map]
        exact List.map_congr_left (fun v _ => hfun v)
      rw [hinputs] at hthis
      exact hthis
    · refine ⟨[⟨ExternalOutputName a, S, E⟩, ⟨a ++ "_add_output", S, E⟩] ++ tail, ?_, ?_⟩
      · rw [htail]
        show (g.nodeArgs ++ [(⟨ExternalOutputName a, S, E⟩ : NodeArg), ⟨a ++ "_add_output", S, E⟩]) ++ tail = _
        rw [List.append_assoc]
      · intro x hx
        rcases List.mem_cons.mp hx with rfl | hxr
        · exact ⟨⟨ExternalOutputName x, S, E⟩, List.mem_append_left _ (by simp), rfl⟩
        · obtain ⟨arg, harg, hname⟩ := hext x hxr
          exact ⟨arg, List.mem_append_right _ harg, hname⟩
    · exact hin
    · exact hout

lemma yieldLists_ins (internals : List String) (names : List String) :
    ∀ i, (yieldLists internals i names).1 = names := by
  induction names with
  | nil => intro i; rfl
  | cons name rest ih =>
    intro i
    unfold yieldLists
    dsimp only
    by_cases h : GradientName name ∈ internals
    · rw [if_pos h]
      show name :: (yieldLists internals (i + 1) rest).1 = name :: rest
      rw [ih (i + 1)]
    · rw [if_neg h]
      show name :: (yieldLists internals (i + 1) rest).1 = name :: rest
      rw [ih (i + 1)]

lemma yieldLists_outs (internals : List String) (names : List String) :
    ∀ i, (yieldLists internals i names).2.1 = names.map (fun name =>
      if GradientName name ∈ internals then ExternalOutputName (GradientName name)
      else GradientName name) := by
  induction names with
  | nil => intro i; rfl
  | cons name rest ih =>
    intro i
    unfold yieldLists
    dsimp only
    by_cases h : GradientName name ∈ internals
    · rw [if_pos h]
      show ExternalOutputName (GradientName name) :: (yieldLists internals (i + 1) rest).2.1 = _
      rw [ih (i + 1), List.map_cons, if_pos h]
    · rw [if_neg h]
      show GradientName name :: (yieldLists internals (i + 1) rest).2.1 = _
      rw [ih (i + 1), List.map_cons, if_neg h]

lemma yieldLists_fullShape (internals : List String) (names : List String) :
    ∀ i j, (j ∈ (yieldLists internals i names).2.2 ↔
      ∃ k, k < names.length ∧ j = i + k ∧ GradientName (names.getD k "") ∉ internals) := by
  induction names with
  | nil =>
    intro i j
    simp [yieldLists]
  | cons name rest ih =>
    intro i j
    unfold yieldLists
    dsimp only
    by_cases h : GradientName name ∈ internals
    · rw [if_pos h]
      show j ∈ (yieldLists internals (i + 1) rest).2.2 ↔ _
      rw [ih (i + 1) j]
      constructor
      · rintro ⟨k, hk, rfl, hni⟩
        refine ⟨k + 1, by simpa using Nat.succ_lt_succ hk, by omega, ?_⟩
        simpa using hni
      · rintro ⟨k, hk, rfl, hni⟩
        cases k with
        | zero => exact absurd h (by simpa using hni)
        | succ k' =>
          refine ⟨k', by simpa using Nat.lt_of_succ_lt_succ hk, by omega, ?_⟩
          simpa using hni
    · rw [if_neg h]
      show j ∈ i :: (yieldLists internals (i + 1) rest).2.2 ↔ _
      rw [List.mem_cons, ih (i + 1) j]
      constructor
      · rintro (rfl | ⟨k, hk, rfl, hni⟩)
        · exact ⟨0, by simp, by omega, by simpa using h⟩
        · refine ⟨k + 1, by simpa using Nat.succ_lt_succ hk, by omega, ?_⟩
          simpa using hni
      · rintro ⟨k, hk, rfl, hni⟩
        cases k with
        | zero => left; omega
        | succ k' =>
          right
          refine ⟨k', by simpa using Nat.lt_of_succ_lt_succ hk, by omega, ?_⟩
          simpa using hni

lemma internalFold_inv (s : List String) (P : String → Prop) (outs : List String)
    (hP : ∀ o ∈ outs, P o) :
    ∀ acc, acc.Nodup → (∀ a ∈ acc, P a) →
      (outs.foldl (fun acc2 o =>
        if o ∈ s ∧ o ∉ acc2 then acc2 ++ [o] else acc2) acc).Nodup ∧
      (∀ a ∈ outs.foldl (fun acc2 o =>
        if o ∈ s ∧ o ∉ acc2 then acc2 ++ [o] else acc2) acc, P a) := by
  induction outs with
  | nil => intro acc h1 h2; exact ⟨h1, h2⟩
  | cons o rest ih =>
    intro acc h1 h2
    rw [List.foldl_cons]
    by_cases hc : o ∈ s ∧ o ∉ acc
    · rw [if_pos hc]
      apply ih (fun x hx => hP x (List.mem_cons_of_mem o hx))
      · simp [List.nodup_append, h1, hc.2]
      · intro a ha
        rcases List.mem_append.mp ha with ha | ha
        · exact h2 a ha
        · have : a = o := by simpa using ha
          subst this
          exact hP a (List.mem_cons_self a rest)
    · rw [if_neg hc]
      exact ih (fun x hx => hP x (List.mem_cons_of_mem o hx)) acc h1 h2

lemma internalOutputGradNames_sound (g : Graph) (s : List String) :
    (internalOutputGradNames g s).Nodup ∧
    ∀ a ∈ internalOutputGradNames g s, ∃ p ∈ g.nodes, a ∈ p.outputs := by
  unfold internalOutputGradNames
  have main : ∀ (nodes : List Node), (∀ n ∈ nodes, n ∈ g.nodes) →
      ∀ acc, acc.Nodup → (∀ a ∈ acc, ∃ p ∈ g.nodes, a ∈ p.outputs) →
      (nodes.foldl (fun acc n => n.outputs.foldl (fun acc2 o =>
        if o ∈ s ∧ o ∉ acc2 then acc2 ++ [o] else acc2) acc) acc).Nodup ∧
      (∀ a ∈ nodes.foldl (fun acc n => n.outputs.foldl (fun acc2 o =>
        if o ∈ s ∧ o ∉ acc2 then acc2 ++ [o] else acc2) acc) acc,
        ∃ p ∈ g.nodes, a ∈ p.outputs) := by
    intro nodes
    induction nodes with
    | nil => intro _ acc h1 h2; exact ⟨h1, h2⟩
    | cons n rest ih =>
      intro hsub acc h1 h2
      rw [List.foldl_cons]
      have step := internalFold_inv s (fun a => ∃ p ∈ g.nodes, a ∈ p.outputs) n.outputs
        (fun o ho => ⟨n, hsub n (List.mem_cons_self n rest), ho⟩) acc h1 h2
      exact ih (fun m hm => hsub m (List.mem_cons_of_mem n hm)) _ step.1 step.2
  exact main g.nodes (fun n hn => hn) [] (by simp) (by simp)

/-- The internally produced output-gradient names of a builder state. -/
def outputGradInternals (g : Graph) (info : TrainingGraphInfo) : List String :=
  internalOutputGradNames g (info.userOutputNames.map GradientName)

/-- C9: for every declared output whose gradient name is produced inside
the backward graph, `HandleOutputsAndGrads` inserts an Add summing a fresh
external-seed value with the internal contribution and redirects all
consumers of the internal value to the Add's result; the exposed full-shape
index list — also stored in the YieldOp's attribute — contains exactly the
indices of outputs whose seed gradient is not internally reconciled. -/
theorem C9_output_gradient_reconciliation (g : Graph) (info : TrainingGraphInfo)
    (hfe : ∀ a ∈ outputGradInternals g info, g.getNodeArg (ExternalOutputName a) = none)
    (hfa : ∀ a ∈ outputGradInternals g info, g.getNodeArg (a ++ "_add_output") = none)
    (h5 : ∀ a ∈ outputGradInternals g info, ∀ b ∈ outputGradInternals g info,
      ExternalOutputName a ≠ b ++ "_add_output")
    (h6 : ∀ a ∈ outputGradInternals g info, ∀ b ∈ outputGradInternals g info,
      a ≠ b ++ "_add_output")
    (h7 : ∀ a ∈ outputGradInternals g info, ∀ b ∈ outputGradInternals g info,
      a ≠ ExternalOutputName b)
    (hWF : ∀ n ∈ g.nodes, n.idx < g.nextNodeIdx) :
    ∃ gF infoF, HandleOutputsAndGrads g info = .ok (gF, infoF) ∧
      (∀ a ∈ outputGradInternals g info, ∃ k, (⟨k, a ++ "_add", "Add", "", 0,
          [ExternalOutputName a, a], [a ++ "_add_output"], [], ""⟩ : Node) ∈ gF.nodes) ∧
      (∀ n ∈ g.nodes,
        { n with inputs := n.inputs.map (substGrad (outputGradInternals g info)) }
          ∈ gF.nodes) ∧
      (∀ a ∈ outputGradInternals g info,
        ∃ arg ∈ gF.nodeArgs, arg.name = ExternalOutputName a) ∧
      infoF.outputGradIndicesRequireFullShape =
        (yieldLists (outputGradInternals g info) 0 info.userOutputNames).2.2 ∧
      (∀ j, j ∈ infoF.outputGradIndicesRequireFullShape ↔
        (j < info.userOutputNames.length ∧
         GradientName (info.userOutputNames.getD j "") ∉ outputGradInternals g info)) ∧
      (∃ y ∈ gF.nodes, y.opType = "YieldOp" ∧ y.inputs = info.userOutputNames ∧
        y.outputs = info.userOutputNames.map (fun name =>
          if GradientName name ∈ outputGradInternals g info
          then ExternalOutputName (GradientName name) else GradientName name) ∧
        y.attrs = [("full_shape_outputs",
          .ints (infoF.outputGradIndicesRequireFullShape.map Int.ofNat))]) := by
  obtain ⟨hnd, hprodAll⟩ := internalOutputGradNames_sound g (info.userOutputNames.map GradientName)
  unfold outputGradInternals at hfe hfa h5 h6 h7 ⊢
  obtain ⟨g1, hrun, hAdds, hPres, ⟨tail, htail, hext⟩, hin, hout⟩ :=
    accumLoop_spec (internalOutputGradNames g (info.userOutputNames.map GradientName)) g
      hnd hprodAll hfe hfa h5 h6 h7 hWF
  unfold HandleOutputsAndGrads
  dsimp only
  rw [hrun]
  dsimp only
  refine ⟨_, _, rfl, ?_, ?_, ?_, rfl, ?_, ?_⟩
  · intro a ha
    obtain ⟨k, hk⟩ := hAdds a ha
    exact ⟨k, List.mem_append_left _ hk⟩
  · intro n hn
    exact List.mem_append_left _ (hPres n hn)
  · intro a ha
    obtain ⟨arg, harg, hname⟩ := hext a ha
    refine ⟨arg, ?_, hname⟩
    show arg ∈ g1.nodeArgs
    rw [htail]
    exact List.mem_append_right _ harg
  · intro j
    rw [show (({ info with outputGradIndicesRequireFullShape :=
      (yieldLists (internalOutputGradNames g (info.userOutputNames.map GradientName)) 0
        info.userOutputNames).2.2 } : TrainingGraphInfo)).outputGradIndicesRequireFullShape =
      (yieldLists (internalOutputGradNames g (info.userOutputNames.map GradientName)) 0
        info.userOutputNames).2.2 from rfl]
    rw [yieldLists_fullShape]
    constructor
    · rintro ⟨k, hk, hkj, hni⟩
      have : j = k := by omega
      subst this
      exact ⟨hk, hni⟩
    · rintro ⟨hj, hni⟩
      exact ⟨j, hj, by omega, hni⟩
  · refine ⟨_, List.mem_append_right _ (List.mem_singleton_self _), rfl, ?_, ?_, rfl⟩
    · exact yieldLists_ins _ _ 0
    · exact yieldLists_outs _ _ 0

/-- Producer of the internal output-gradient in the C9 witness. -/
def c9_P : Node := ⟨0, "P", "Mul", "", 13, ["s"], ["o_grad"], [], ""⟩

/-- Downstream consumer of the internal gradient in the C9 witness. -/
def c9_C : Node := ⟨1, "Cns", "Relu", "", 13, ["o_grad"], ["z"], [], ""⟩

/-- Graph for the C9 witness: output `o` whose gradient is produced
internally and consumed downstream. -/
def c9_g : Graph := ⟨[c9_P, c9_C], [⟨"o_grad", some [2], some 1⟩], [], ["o"], 2, 0⟩

/-- Builder info for the C9 witness. -/
def c9_info : TrainingGraphInfo := ⟨[], ["o"], [], [], [], []⟩

/-- Witness for C9 at the concrete internally-reconciled output. -/
theorem C9_output_gradient_reconciliation_witness :
    ∃ gF infoF, HandleOutputsAndGrads c9_g c9_info = .ok (gF, infoF) ∧
      (∀ a ∈ outputGradInternals c9_g c9_info, ∃ k, (⟨k, a ++ "_add", "Add", "", 0,
          [ExternalOutputName a, a], [a ++ "_add_output"], [], ""⟩ : Node) ∈ gF.nodes) ∧
      (∀ n ∈ c9_g.nodes,
        { n with inputs := n.inputs.map (substGrad (outputGradInternals c9_g c9_info)) }
          ∈ gF.nodes) ∧
      (∀ a ∈ outputGradInternals c9_g c9_info,
        ∃ arg ∈ gF.nodeArgs, arg.name = ExternalOutputName a) ∧
      infoF.outputGradIndicesRequireFullShape =
        (yieldLists (outputGradInternals c9_g c9_info) 0 c9_info.userOutputNames).2.2 ∧
      (∀ j, j ∈ infoF.outputGradIndicesRequireFullShape ↔
        (j < c9_info.userOutputNames.length ∧
         GradientName (c9_info.userOutputNames.getD j "") ∉ outputGradInternals c9_g c9_info)) ∧
      (∃ y ∈ gF.nodes, y.opType = "YieldOp" ∧ y.inputs = c9_info.userOutputNames ∧
        y.outputs = c9_info.userOutputNames.map (fun name =>
          if GradientName name ∈ outputGradInternals c9_g c9_info
          then ExternalOutputName (GradientName name) else GradientName name) ∧
        y.attrs = [("full_shape_outputs",
          .ints (infoF.outputGradIndicesRequireFullShape.map Int.ofNat))]) :=
  C9_output_gradient_reconciliation c9_g c9_info (by decide) (by decide) (by decide)
    (by decide) (by decide) (by decide)

/-! ## C7: deferred-removal safety of the traversal -/

lemma GetTransposePerms_ne_dead (g : Graph) (t : Node) :
    GetTransposePerms g t ≠ .error .deadIndex := by
  intro h
  unfold GetTransposePerms at h
  repeat' split at h
  all_goals simp_all

lemma GetTransposeNodeFromOutput_ne_dead (g : Graph) (v : String) :
    GetTransposeNodeFromOutput g v ≠ .error .deadIndex := by
  intro h
  unfold GetTransposeNodeFromOutput at h
  repeat' split at h
  all_goals simp_all [GetTransposePerms_ne_dead]

lemma UpdateConsumerCount_ne_dead (g : Graph) (target : String) (cm : List (String × Nat)) :
    UpdateConsumerCount g target cm ≠ .error .deadIndex := by
  intro h
  unfold UpdateConsumerCount at h
  dsimp only at h
  split at h
  · simp_all
  · split at h <;> simp_all

lemma GetTransposeNodeFromCast_ne_dead (g : Graph) (c : Node) :
    GetTransposeNodeFromCast g c ≠ .error .deadIndex := by
  intro h
  unfold GetTransposeNodeFromCast at h
  repeat' split at h
  all_goals simp_all [GetTransposeNodeFromOutput_ne_dead]

lemma castAttempt_ne_dead (g : Graph) (v : String) :
    castAttempt g v ≠ .error .deadIndex := by
  intro h
  unfold castAttempt at h
  repeat' split at h
  all_goals simp_all [GetTransposeNodeFromCast_ne_dead]

lemma matchOperands_ne_dead (g : Graph) (l r : String) :
    matchOperands g l r ≠ .error .deadIndex := by
  intro h
  unfold matchOperands at h
  repeat' split at h
  all_goals simp_all [GetTransposeNodeFromOutput_ne_dead, castAttempt_ne_dead]

lemma fusedAttrs_ne_dead (node : Node) (hl hr : Bool) :
    fusedAttrs node hl hr ≠ .error .deadIndex := by
  intro h
  unfold fusedAttrs at h
  repeat' split at h
  all_goals simp_all

lemma claimOperand_ne_dead (g : Graph) (i0 : String) (m : Option Node)
    (cm : List (String × Nat)) (rm : List Nat) :
    claimOperand g i0 m cm rm ≠ .error .deadIndex := by
  intro h
  unfold claimOperand at h
  repeat' split at h
  all_goals simp_all [UpdateConsumerCount_ne_dead]

lemma fuseStep_ne_dead (st : PassState) (node : Node) (li ri : String)
    (left right : Option Node) :
    fuseStep st node li ri left right ≠ .error .deadIndex := by
  intro h
  unfold fuseStep at h
  repeat' split at h
  all_goals simp_all [claimOperand_ne_dead, fusedAttrs_ne_dead]

lemma processNode_dead (eps : List String) (st : PassState) (i : Nat)
    (h : processNode eps st i = .error .deadIndex) : st.g.getNode i = none := by
  unfold processNode at h
  cases hn : st.g.getNode i with
  | none => rfl
  | some node =>
    exfalso
    rw [hn] at h
    dsimp only at h
    repeat' split at h
    all_goals simp_all [matchOperands_ne_dead, fuseStep_ne_dead]

/-- A value name in the pass's private namespace: the `_transformed` suffix
used for the intermediate value of the Cast/Transpose interchange. -/
def TransformedName (v : String) : Prop := ∃ s, v = s ++ "_transformed"

/-- Topological sortedness of a node list: no node consumes a value produced
by a later node (the guarantee of `GetNodesInTopologicalOrder`). -/
def TopoSortedNodes (nodes : List Node) : Prop :=
  nodes.Pairwise (fun a b => ∀ v ∈ a.inputs, v ∉ b.outputs)

/-- Loop invariant of the fusion traversal, relative to the starting graph
`g0` and the suffix `rest` of its node list still to be visited: the index
arena only grows, every live node with a pre-existing index is an original
node, every unvisited original node is still live, and every node added by
the pass that is a Cast produces only `_transformed` values. -/
def FusionInv (g0 : Graph) (rest : List Node) (g : Graph) : Prop :=
  g0.nextNodeIdx ≤ g.nextNodeIdx ∧
  (∀ m ∈ g.nodes, m.idx < g0.nextNodeIdx → m ∈ g0.nodes) ∧
  (∀ m ∈ rest, m ∈ g.nodes) ∧
  (∀ m ∈ g.nodes, g0.nextNodeIdx ≤ m.idx → m.opType = "Cast" →
    ∀ v ∈ m.outputs, TransformedName v)

lemma not_transformed_of_short (v : String) (h : v.length < 12) :
    ¬ TransformedName v := by
  rintro ⟨s, rfl⟩
  rw [String.length_append] at h
  have h12 : ("_transformed" : String).length = 12 := rfl
  omega

lemma getNode_some (g : Graph) (i : Nat) (m : Node) (h : g.getNode i = some m) :
    m ∈ g.nodes ∧ m.idx = i := by
  unfold Graph.getNode at h
  refine ⟨List.mem_of_find?_eq_some h, ?_⟩
  have := List.find?_some h
  simpa using this

lemma getNode_mem_isSome (g : Graph) (m : Node) (hm : m ∈ g.nodes) :
    g.getNode m.idx ≠ none := by
  unfold Graph.getNode
  intro h
  rw [List.find?_eq_none] at h
  exact h m hm (by simp)

lemma producer_mem (g : Graph) (v : String) (c : Node)
    (h : g.getProducerNode v = some c) : c ∈ g.nodes ∧ v ∈ c.outputs := by
  unfold Graph.getProducerNode at h
  refine ⟨List.mem_of_find?_eq_some h, ?_⟩
  have := List.find?_some h
  simpa using this

lemma transposeFromOutput_mem (g : Graph) (v : String) (t : Node)
    (h : GetTransposeNodeFromOutput g v = .ok (some t)) :
    g.getProducerNode v = some t ∧ t.opType = "Transpose" := by
  unfold GetTransposeNodeFromOutput at h
  repeat' split at h
  all_goals simp_all

lemma nodup_idx_unique {l : List Node} (h : (l.map (fun m => m.idx)).Nodup)
    {a b : Node} (ha : a ∈ l) (hb : b ∈ l) (hab : a.idx = b.idx) : a = b :=
  List.inj_on_of_nodup_map h ha hb hab

lemma nodup_split_head (done tl : List Node) (n : Node)
    (h : (((done ++ n :: tl)).map (fun m => m.idx)).Nodup) :
    ∀ m ∈ tl, m.idx ≠ n.idx := by
  intro m hm heq
  rw [List.map_append] at h
  have h2 := h.of_append_right
  rw [List.map_cons, List.nodup_cons] at h2
  exact h2.1 (by rw [← heq]; exact List.mem_map_of_mem _ hm)

lemma topo_split (done tl : List Node) (n : Node)
    (h : TopoSortedNodes (done ++ n :: tl)) :
    (∀ m ∈ tl, ∀ u ∈ n.inputs, u ∉ m.outputs) ∧
    (∀ d ∈ done, ∀ m ∈ tl, ∀ u ∈ d.inputs, u ∉ m.outputs) := by
  unfold TopoSortedNodes at h
  rw [List.pairwise_append] at h
  obtain ⟨h1, h2, h3⟩ := h
  rw [List.pairwise_cons] at h2
  exact ⟨fun m hm u hu => h2.1 m hm u hu,
    fun d hd m hm u hu => h3 d hd m (List.mem_cons_of_mem n hm) u hu⟩

lemma isFusionTarget_opType (n : Node) (eps : List String)
    (h : isFusionTarget n eps = true) :
    n.opType = "MatMul" ∨ n.opType = "FusedMatMul" := by
  unfold isFusionTarget isSupportedOptypeVersionAndDomain at h
  simp only [Bool.and_eq_true, Bool.or_eq_true, decide_eq_true_eq] at h
  rcases h.1 with h | h
  · exact Or.inl h.1.1
  · exact Or.inr h.1.1

lemma getOrCreateNodeArg_nodes (g : Graph) (v : String) (S : Option (List Int))
    (E : Option Int) : (g.getOrCreateNodeArg v S E).2.nodes = g.nodes := by
  unfold Graph.getOrCreateNodeArg
  split <;> rfl

lemma getOrCreateNodeArg_nextNodeIdx (g : Graph) (v : String) (S : Option (List Int))
    (E : Option Int) : (g.getOrCreateNodeArg v S E).2.nextNodeIdx = g.nextNodeIdx := by
  unfold Graph.getOrCreateNodeArg
  split <;> rfl

lemma getOrCreateNodeArg_name (g : Graph) (v : String) (S : Option (List Int))
    (E : Option Int) : (g.getOrCreateNodeArg v S E).1.name = v := by
  unfold Graph.getOrCreateNodeArg
  cases h : g.getNodeArg v with
  | none => rfl
  | some a =>
    dsimp only
    unfold Graph.getNodeArg at h
    have := List.find?_some h
    simpa using this

lemma addNode_snd_nodes (g : Graph) (nm op d : String) (sv : Nat)
    (ins outs : List String) (attrs : List (String × Attr)) (ep : String) :
    (g.addNode nm op d sv ins outs attrs ep).2.nodes
      = g.nodes ++ [⟨g.nextNodeIdx, nm, op, d, sv, ins, outs, attrs, ep⟩] := rfl

lemma addNode_snd_nextNodeIdx (g : Graph) (nm op d : String) (sv : Nat)
    (ins outs : List String) (attrs : List (String × Attr)) (ep : String) :
    (g.addNode nm op d sv ins outs attrs ep).2.nextNodeIdx = g.nextNodeIdx + 1 := rfl

lemma removeNode_nodes (g : Graph) (i : Nat) :
    (g.removeNode i).nodes = g.nodes.filter (fun n => n.idx ≠ i) := rfl

lemma removeNode_nextNodeIdx (g : Graph) (i : Nat) :
    (g.removeNode i).nextNodeIdx = g.nextNodeIdx := rfl

lemma getTransposeNodeFromCast_inv (g : Graph) (c : Node) (g' : Graph) (t : Node)
    (h : GetTransposeNodeFromCast g c = .ok (some (g', t))) :
    ∃ T ci,
      ci ∈ c.inputs ∧
      g.getProducerNode ci = some T ∧
      T.opType = "Transpose" ∧
      g.nextNodeIdx ≤ g'.nextNodeIdx ∧
      (∀ m ∈ g.nodes, m.idx ≠ c.idx → m.idx ≠ T.idx → m ∈ g'.nodes) ∧
      (∀ m ∈ g'.nodes, m ∈ g.nodes ∨
        (g.nextNodeIdx ≤ m.idx ∧
          (m.opType = "Cast" → ∀ u ∈ m.outputs, TransformedName u))) := by
  unfold GetTransposeNodeFromCast at h
  cases hin : c.inputs with
  | nil => rw [hin] at h; exact absurd h (by simp)
  | cons castIn tailIn =>
    rw [hin] at h
    dsimp only at h
    cases htr : GetTransposeNodeFromOutput g castIn with
    | error e => rw [htr] at h; exact absurd h (by simp)
    | ok o =>
      rw [htr] at h
      cases o with
      | none => exact absurd h (by simp)
      | some transpose =>
        dsimp only at h
        obtain ⟨hprod, hTop⟩ := transposeFromOutput_mem g castIn transpose htr
        split at h
        · exact absurd h (by simp)
        · cases hco : c.outputs with
          | nil => rw [hco] at h; exact absurd h (by simp)
          | cons castOutput coTail =>
            rw [hco] at h
            cases hti : transpose.inputs with
            | nil => rw [hti] at h; exact absurd h (by simp)
            | cons transposeInput tiTail =>
              rw [hti] at h
              dsimp only at h
              cases hca1 : g.getNodeArg castOutput with
              | none => rw [hca1] at h; exact absurd h (by simp)
              | some castOutArg =>
                rw [hca1] at h
                cases hca2 : g.getNodeArg transposeInput with
                | none => rw [hca2] at h; exact absurd h (by simp)
                | some transInArg =>
                  rw [hca2] at h
                  dsimp only at h
                  cases het : castOutArg.elemType with
                  | none => rw [het] at h; exact absurd h (by simp)
                  | some elemT =>
                    rw [het] at h
                    dsimp only at h
                    simp only [Except.ok.injEq, Option.some.injEq, Prod.mk.injEq] at h
                    obtain ⟨hg, -⟩ := h
                    subst hg
                    refine ⟨transpose, castIn, by simp [hin], hprod, hTop, ?_, ?_, ?_⟩
                    · simp only [removeNode_nextNodeIdx, addNode_snd_nextNodeIdx,
                        generateNodeName_nextNodeIdx, getOrCreateNodeArg_nextNodeIdx]
                      omega
                    · intro m hm h1 h2
                      simp only [removeNode_nodes, addNode_snd_nodes,
                        generateNodeName_nodes, generateNodeName_nextNodeIdx,
                        addNode_snd_nextNodeIdx, getOrCreateNodeArg_nodes,
                        getOrCreateNodeArg_nextNodeIdx, List.mem_filter,
                        List.mem_append, List.mem_singleton, decide_eq_true_eq]
                      exact ⟨⟨Or.inl (Or.inl hm), h1⟩, h2⟩
                    · intro m hm
                      simp only [removeNode_nodes, addNode_snd_nodes,
                        generateNodeName_nodes, generateNodeName_nextNodeIdx,
                        addNode_snd_nextNodeIdx, getOrCreateNodeArg_nodes,
                        getOrCreateNodeArg_nextNodeIdx, List.mem_filter,
                        List.mem_append, List.mem_singleton, decide_eq_true_eq] at hm
                      obtain ⟨⟨hm, -⟩, -⟩ := hm
                      rcases hm with (hm | hm) | hm
                      · exact Or.inl hm
                      · subst hm
                        dsimp only
                        refine Or.inr ⟨le_refl _, fun _ u hu => ?_⟩
                        simp only [List.mem_singleton] at hu
                        subst hu
                        rw [getOrCreateNodeArg_name]
                        exact ⟨castOutput, rfl⟩
                      · subst hm
                        dsimp only
                        refine Or.inr ⟨by omega, fun hop => ?_⟩
                        rw [hTop] at hop
                        exact absurd hop (by decide)

lemma castAttempt_inv (g : Graph) (v : String) (g' : Graph) (t : Node)
    (h : castAttempt g v = .ok (some (g', t))) :
    ∃ c T ci,
      g.getProducerNode v = some c ∧ c.opType = "Cast" ∧
      ci ∈ c.inputs ∧ g.getProducerNode ci = some T ∧ T.opType = "Transpose" ∧
      g.nextNodeIdx ≤ g'.nextNodeIdx ∧
      (∀ m ∈ g.nodes, m.idx ≠ c.idx → m.idx ≠ T.idx → m ∈ g'.nodes) ∧
      (∀ m ∈ g'.nodes, m ∈ g.nodes ∨
        (g.nextNodeIdx ≤ m.idx ∧
          (m.opType = "Cast" → ∀ u ∈ m.outputs, TransformedName u))) := by
  unfold castAttempt at h
  cases hp : g.getProducerNode v with
  | none => rw [hp] at h; exact absurd h (by simp)
  | some c =>
    rw [hp] at h
    dsimp only at h
    by_cases hop : c.opType = "Cast"
    · rw [if_pos hop] at h
      obtain ⟨T, ci, h1, h2, h3, h4, h5, h6⟩ := getTransposeNodeFromCast_inv g c g' t h
      exact ⟨c, T, ci, rfl, hop, h1, h2, h3, h4, h5, h6⟩
    · rw [if_neg hop] at h
      exact absurd h (by simp)

lemma matchOperands_inv (g : Graph) (l r : String) (g' : Graph)
    (left right : Option Node)
    (h : matchOperands g l r = .ok (g', left, right)) :
    g' = g ∨ ∃ v t, (v = l ∨ v = r) ∧ castAttempt g v = .ok (some (g', t)) := by
  unfold matchOperands at h
  cases h1 : GetTransposeNodeFromOutput g l with
  | error e => rw [h1] at h; exact absurd h (by simp)
  | ok leftR =>
    rw [h1] at h
    dsimp only at h
    cases h2 : GetTransposeNodeFromOutput g r with
    | error e => rw [h2] at h; exact absurd h (by simp)
    | ok rightR =>
      rw [h2] at h
      dsimp only at h
      cases leftR with
      | some lt =>
        simp only [Except.ok.injEq, Prod.mk.injEq] at h
        exact Or.inl h.1.symm
      | none =>
        cases rightR with
        | some rt =>
          simp only [Except.ok.injEq, Prod.mk.injEq] at h
          exact Or.inl h.1.symm
        | none =>
          dsimp only at h
          cases h3 : castAttempt g l with
          | error e => rw [h3] at h; exact absurd h (by simp)
          | ok o1 =>
            rw [h3] at h
            cases o1 with
            | some gt =>
              dsimp only at h
              simp only [Except.ok.injEq, Prod.mk.injEq] at h
              refine Or.inr ⟨l, gt.2, Or.inl rfl, ?_⟩
              rw [h3, ← h.1]
            | none =>
              dsimp only at h
              cases h4 : castAttempt g r with
              | error e => rw [h4] at h; exact absurd h (by simp)
              | ok o2 =>
                rw [h4] at h
                cases o2 with
                | some gt =>
                  dsimp only at h
                  simp only [Except.ok.injEq, Prod.mk.injEq] at h
                  refine Or.inr ⟨r, gt.2, Or.inr rfl, ?_⟩
                  rw [h4, ← h.1]
                | none =>
                  dsimp only at h
                  simp only [Except.ok.injEq, Prod.mk.injEq] at h
                  exact Or.inl h.1.symm

lemma fuseStep_inv (st : PassState) (node : Node) (li ri : String)
    (left right : Option Node) (st' : PassState)
    (h : fuseStep st node li ri left right = .ok st') :
    st.g.nextNodeIdx ≤ st'.g.nextNodeIdx ∧
    (∀ m ∈ st.g.nodes, m.idx ≠ node.idx → m ∈ st'.g.nodes) ∧
    (∀ m ∈ st'.g.nodes, m ∈ st.g.nodes ∨
      (st.g.nextNodeIdx ≤ m.idx ∧ m.opType = "FusedMatMul")) := by
  unfold fuseStep at h
  cases h1 : claimOperand st.g li left st.consumerCount st.removedNodes with
  | error e => rw [h1] at h; exact absurd h (by simp)
  | ok t1 =>
    rw [h1] at h
    obtain ⟨leftInput, cm1, removed1⟩ := t1
    dsimp only at h
    cases h2 : claimOperand st.g ri right cm1 removed1 with
    | error e => rw [h2] at h; exact absurd h (by simp)
    | ok t2 =>
      rw [h2] at h
      obtain ⟨rightInput, cm2, removed2⟩ := t2
      dsimp only at h
      cases h3 : node.outputs with
      | nil => rw [h3] at h; exact absurd h (by simp)
      | cons outName outTail =>
        rw [h3] at h
        dsimp only at h
        cases h4 : fusedAttrs node left.isSome right.isSome with
        | error e => rw [h4] at h; exact absurd h (by simp)
        | ok attrs =>
          rw [h4] at h
          dsimp only at h
          injection h with h
          subst h
          refine ⟨?_, ?_, ?_⟩
          · dsimp only
            simp only [removeNode_nextNodeIdx, addNode_snd_nextNodeIdx,
              generateNodeName_nextNodeIdx]
            omega
          · intro m hm hne
            dsimp only
            simp only [removeNode_nodes, addNode_snd_nodes, generateNodeName_nodes,
              generateNodeName_nextNodeIdx, addNode_snd_nextNodeIdx,
              List.mem_filter, List.mem_append, List.mem_singleton,
              decide_eq_true_eq]
            exact ⟨Or.inl hm, hne⟩
          · intro m hm
            dsimp only at hm
            simp only [removeNode_nodes, addNode_snd_nodes, generateNodeName_nodes,
              generateNodeName_nextNodeIdx, addNode_snd_nextNodeIdx,
              List.mem_filter, List.mem_append, List.mem_singleton,
              decide_eq_true_eq] at hm
            obtain ⟨hm, -⟩ := hm
            rcases hm with hm | hm
            · exact Or.inl hm
            · subst hm
              dsimp only
              exact Or.inr ⟨le_refl _, rfl⟩

lemma fuse_case_preserves (eps : List String) (g0 : Graph)
    (hnd : (g0.nodes.map (fun m => m.idx)).Nodup)
    (hN : ∀ m ∈ g0.nodes, m.idx < g0.nextNodeIdx)
    (htopo : TopoSortedNodes g0.nodes)
    (hfresh : ∀ m ∈ g0.nodes, ∀ v ∈ m.inputs, ¬ TransformedName v)
    (done tl : List Node) (n : Node)
    (hsplit : g0.nodes = done ++ n :: tl)
    (st st' : PassState) (g' : Graph) (left right : Option Node)
    (l r : String) (restIns : List String)
    (hI1 : g0.nextNodeIdx ≤ st.g.nextNodeIdx)
    (hI2 : ∀ m ∈ st.g.nodes, m.idx < g0.nextNodeIdx → m ∈ g0.nodes)
    (hI3 : ∀ m ∈ n :: tl, m ∈ st.g.nodes)
    (hI4 : ∀ m ∈ st.g.nodes, g0.nextNodeIdx ≤ m.idx → m.opType = "Cast" →
      ∀ v ∈ m.outputs, TransformedName v)
    (hft : isFusionTarget n eps = true)
    (hins : n.inputs = l :: r :: restIns)
    (hmo : matchOperands st.g l r = .ok (g', left, right))
    (hfs : fuseStep { st with g := g' } n l r left right = .ok st') :
    FusionInv g0 tl st'.g := by
  have hnmem : n ∈ g0.nodes := by
    rw [hsplit]; exact List.mem_append_right _ (List.mem_cons_self _ _)
  have hnd' : (((done ++ n :: tl)).map (fun m => m.idx)).Nodup := by
    rw [← hsplit]; exact hnd
  have htlsub : ∀ m ∈ tl, m ∈ g0.nodes := by
    intro m hm
    rw [hsplit]
    exact List.mem_append_right _ (List.mem_cons_of_mem _ hm)
  obtain ⟨hF1, hF2, hF3⟩ := fuseStep_inv { st with g := g' } n l r left right st' hfs
  dsimp only at hF1 hF2 hF3
  obtain ⟨hp1, hp2⟩ := topo_split done tl n (hsplit ▸ htopo)
  rcases matchOperands_inv st.g l r g' left right hmo with rfl | ⟨v, t, hv, hca⟩
  · refine ⟨le_trans hI1 hF1, ?_, ?_, ?_⟩
    · intro m hm hlt
      rcases hF3 m hm with hmem | ⟨hge, -⟩
      · exact hI2 m hmem hlt
      · exact absurd hlt (by omega)
    · intro m hm
      have hmem := hI3 m (List.mem_cons_of_mem _ hm)
      exact hF2 m hmem (nodup_split_head done tl n hnd' m hm)
    · intro m hm hge hcast
      rcases hF3 m hm with hmem | ⟨-, hop⟩
      · exact hI4 m hmem hge hcast
      · rw [hop] at hcast
        exact absurd hcast (by decide)
  · obtain ⟨c, T, ci, hpc, hcop, hci, hpT, hTop, hle, hfwd, hbwd⟩ :=
      castAttempt_inv st.g v g' t hca
    have hvin : v ∈ n.inputs := by
      rcases hv with rfl | rfl <;> simp [hins]
    obtain ⟨hcmem, hvout⟩ := producer_mem st.g v c hpc
    obtain ⟨hTmem, hciout⟩ := producer_mem st.g ci T hpT
    have hcA : ∀ m ∈ tl, m.idx ≠ c.idx := by
      intro m hm heq
      by_cases hclt : c.idx < g0.nextNodeIdx
      · have hc0 := hI2 c hcmem hclt
        have hmc : m = c := nodup_idx_unique hnd (htlsub m hm) hc0 heq
        subst hmc
        exact hp1 m hm v hvin hvout
      · have hmlt := hN m (htlsub m hm)
        omega
    have hcorig : c.idx < g0.nextNodeIdx := by
      by_contra hge
      push_neg at hge
      exact hfresh n hnmem v hvin (hI4 c hcmem hge hcop v hvout)
    have hcg0 : c ∈ g0.nodes := hI2 c hcmem hcorig
    have hcne : c ≠ n := by
      intro hEq
      rcases isFusionTarget_opType n eps hft with hO | hO <;>
        (rw [hEq] at hcop; rw [hO] at hcop; exact absurd hcop (by decide))
    have hcdone : c ∈ done := by
      have h0 := hcg0
      rw [hsplit] at h0
      rcases List.mem_append.mp h0 with hd | hnt
      · exact hd
      · rcases List.mem_cons.mp hnt with hEq | htl2
        · exact absurd hEq hcne
        · exact absurd hvout (hp1 c htl2 v hvin)
    have hcT : ∀ m ∈ tl, m.idx ≠ T.idx := by
      intro m hm heq
      by_cases hTlt : T.idx < g0.nextNodeIdx
      · have hT0 := hI2 T hTmem hTlt
        have hmT : m = T := nodup_idx_unique hnd (htlsub m hm) hT0 heq
        subst hmT
        exact hp2 c hcdone m hm ci hci hciout
      · have hmlt := hN m (htlsub m hm)
        omega
    refine ⟨le_trans hI1 (le_trans hle hF1), ?_, ?_, ?_⟩
    · intro m hm hlt
      rcases hF3 m hm with hmem | ⟨hge, -⟩
      · rcases hbwd m hmem with hst | ⟨hge2, -⟩
        · exact hI2 m hst hlt
        · exact absurd hlt (by omega)
      · exact absurd hlt (by omega)
    · intro m hm
      have hm0 : m ∈ st.g.nodes := hI3 m (List.mem_cons_of_mem _ hm)
      have h3 : m ∈ g'.nodes := hfwd m hm0 (hcA m hm) (hcT m hm)
      exact hF2 m h3 (nodup_split_head done tl n hnd' m hm)
    · intro m hm hge hcast
      rcases hF3 m hm with hmem | ⟨-, hop⟩
      · rcases hbwd m hmem with hst | ⟨-, himp⟩
        · exact hI4 m hst hge hcast
        · exact himp hcast
      · rw [hop] at hcast
        exact absurd hcast (by decide)

lemma processNode_preserves (eps : List String) (g0 : Graph)
    (hnd : (g0.nodes.map (fun m => m.idx)).Nodup)
    (hN : ∀ m ∈ g0.nodes, m.idx < g0.nextNodeIdx)
    (htopo : TopoSortedNodes g0.nodes)
    (hfresh : ∀ m ∈ g0.nodes, ∀ v ∈ m.inputs, ¬ TransformedName v)
    (done tl : List Node) (n : Node)
    (hsplit : g0.nodes = done ++ n :: tl)
    (st st' : PassState)
    (hInv : FusionInv g0 (n :: tl) st.g)
    (h : processNode eps st n.idx = .ok st') :
    FusionInv g0 tl st'.g := by
  obtain ⟨hI1, hI2, hI3, hI4⟩ := hInv
  have hnmem : n ∈ g0.nodes := by
    rw [hsplit]; exact List.mem_append_right _ (List.mem_cons_self _ _)
  unfold processNode at h
  cases hn : st.g.getNode n.idx with
  | none => rw [hn] at h; exact absurd h (by simp)
  | some node =>
    rw [hn] at h
    obtain ⟨hnodeMem, hnodeIdx⟩ := getNode_some st.g n.idx node hn
    have hnodeOrig : node ∈ g0.nodes :=
      hI2 node hnodeMem (by rw [hnodeIdx]; exact hN n hnmem)
    have hnode : node = n := nodup_idx_unique hnd hnodeOrig hnmem hnodeIdx
    subst hnode
    dsimp only at h
    by_cases hft : isFusionTarget node eps
    case neg =>
      rw [if_neg hft] at h
      injection h with h
      subst h
      exact ⟨hI1, hI2, fun m hm => hI3 m (List.mem_cons_of_mem _ hm), hI4⟩
    case pos =>
      rw [if_pos hft] at h
      cases hins : node.inputs with
      | nil => rw [hins] at h; exact absurd h (by simp)
      | cons l rest1 =>
        cases rest1 with
        | nil => rw [hins] at h; exact absurd h (by simp)
        | cons r restIns =>
          rw [hins] at h
          dsimp only at h
          cases hmo : matchOperands st.g l r with
          | error e => rw [hmo] at h; exact absurd h (by simp)
          | ok triple =>
            rw [hmo] at h
            obtain ⟨g', left, right⟩ := triple
            dsimp only at h
            cases left with
            | none =>
              cases right with
              | none =>
                dsimp only at h
                injection h with h
                subst h
                exact ⟨hI1, hI2, fun m hm => hI3 m (List.mem_cons_of_mem _ hm), hI4⟩
              | some rt =>
                exact fuse_case_preserves eps g0 hnd hN htopo hfresh done tl node
                  hsplit st st' g' none (some rt) l r restIns hI1 hI2 hI3 hI4 hft
                  hins hmo h
            | some lt =>
              exact fuse_case_preserves eps g0 hnd hN htopo hfresh done tl node
                hsplit st st' g' (some lt) right l r restIns hI1 hI2 hI3 hI4 hft
                hins hmo h

lemma applyLoop_no_dead (eps : List String) (g0 : Graph)
    (hnd : (g0.nodes.map (fun m => m.idx)).Nodup)
    (hN : ∀ m ∈ g0.nodes, m.idx < g0.nextNodeIdx)
    (htopo : TopoSortedNodes g0.nodes)
    (hfresh : ∀ m ∈ g0.nodes, ∀ v ∈ m.inputs, ¬ TransformedName v) :
    ∀ (rest done : List Node) (st : PassState),
      g0.nodes = done ++ rest →
      FusionInv g0 rest st.g →
      applyLoop eps st (rest.map (fun m => m.idx)) ≠ .error .deadIndex := by
  intro rest
  induction rest with
  | nil => intro done st _ _ hbad; exact absurd hbad (by simp [applyLoop])
  | cons n tl ih =>
    intro done st hsplit hInv hbad
    rw [List.map_cons] at hbad
    unfold applyLoop at hbad
    cases hp : processNode eps st n.idx with
    | error e =>
      rw [hp] at hbad
      injection hbad with hbad
      subst hbad
      have hdead := processNode_dead eps st n.idx hp
      have hmem : n ∈ st.g.nodes := hInv.2.2.1 n (List.mem_cons_self _ _)
      exact getNode_mem_isSome st.g n hmem hdead
    | ok st1 =>
      rw [hp] at hbad
      have hInv' := processNode_preserves eps g0 hnd hN htopo hfresh done tl n
        hsplit st st1 hInv hp
      exact ih (done ++ [n]) st1 (by rw [hsplit]; simp) hInv' hbad

/-- C7: deferred-removal safety of the fusion traversal.  On a graph whose
node indices are distinct and below the arena high-water mark, whose node
list is topologically sorted, and whose nodes consume no value in the
pass's private `_transformed` namespace, every node physically erased while
the snapshot traversal is in progress has already been visited, so
dereferencing each snapshot node index at its visit time always yields a
live node: `ApplyImpl` never returns the dead-index error (transposes whose
consumer count reached zero are erased only after the full traversal, in
the embedding as in the source). -/
theorem C7_deferred_removal_safety (eps : List String) (g : Graph)
    (hnd : (g.nodes.map (fun m => m.idx)).Nodup)
    (hbound : ∀ m ∈ g.nodes, m.idx < g.nextNodeIdx)
    (htopo : TopoSortedNodes g.nodes)
    (hfresh : ∀ m ∈ g.nodes, ∀ v ∈ m.inputs, ¬ TransformedName v) :
    ApplyImpl eps g ≠ .error .deadIndex := by
  intro hbad
  unfold ApplyImpl at hbad
  cases hl : applyLoop eps ⟨g, [], [], false⟩ (g.nodes.map (fun n => n.idx)) with
  | error e =>
    rw [hl] at hbad
    injection hbad with hbad
    subst hbad
    exact applyLoop_no_dead eps g hnd hbound htopo hfresh g.nodes [] ⟨g, [], [], false⟩
      (by simp)
      ⟨le_refl _, fun m hm _ => hm, fun m hm => hm,
        fun m hm hge _ _ _ => absurd (hbound m hm) (by omega)⟩
      hl
  | ok st =>
    rw [hl] at hbad
    exact absurd hbad (by simp)

def c7_t : Node := ⟨0, "T", "Transpose", "", 13, ["x"], ["t"], [("perm", .ints [1, 0])], ""⟩

def c7_m : Node := ⟨1, "M", "MatMul", "", 13, ["t", "w"], ["y"], [], ""⟩

def c7_g : Graph := ⟨[c7_t, c7_m], [], ["x", "w"], ["y"], 2, 0⟩

theorem C7_deferred_removal_safety_witness :
    ApplyImpl [] c7_g ≠ Except.error PassErr.deadIndex :=
  C7_deferred_removal_safety [] c7_g (by decide) (by decide)
    (by unfold TopoSortedNodes; decide)
    (by
      intro m hm v hv
      apply not_transformed_of_short
      fin_cases hm <;> fin_cases hv <;> decide)
